import Mathlib

set_option maxHeartbeats 1000000

/-!
Shallow embedding of the kaleidoscope-rust sources (src/lexer.rs,
src/parser.rs, src/ast.rs, src/main.rs) and theorems settling the
specification claims about them.

Conventions used throughout:
  * Rust panics (panic!, assert!, .unwrap()) are modelled as `none` or
    `Except.error`; a returned value models normal control flow.
  * f64 literals and values are modelled as rationals; IEEE rounding is not
    modelled (no claim depends on a rounded value), NaN is modelled explicitly
    where float-comparison semantics matter.
  * Character classification: Rust is_whitespace (the Unicode White_Space
    property) is modelled in full by rust_is_whitespace; the identifier
    predicates is_alphabetic / is_alphanumeric are modelled by their ASCII
    restrictions, and the one lexer theorem quantified over characters is
    restricted to ASCII, where that restriction is exact (every input
    character is a single byte read by getchar, and within ASCII the Rust
    predicates coincide with the ASCII ones).
-/

/-- Tokens, from lexer.rs (enum Token). -/
inductive Token where
  | TokUndef
  | TokEOF
  | TokDef
  | TokExtern
  | TokIf
  | TokThen
  | TokElse
  | TokFor
  | TokIn
  | TokVar
  | TokBinary
  | TokUnary
  | TokIdentifier (s : String)
  | TokNumber (v : ℚ)
  | TokChar (c : Char)
deriving Repr, DecidableEq

/-- Rust char::is_whitespace: the Unicode White_Space property. It holds of
the ASCII whitespace characters (tab, line feed, vertical tab 0x0B, form feed
0x0C, carriage return, space) together with next-line 0x85, no-break space
0xA0 and the non-Latin-1 Unicode space characters. -/
def rust_is_whitespace (c : Char) : Bool :=
  [0x09, 0x0A, 0x0B, 0x0C, 0x0D, 0x20, 0x85, 0xA0, 0x1680,
    0x2000, 0x2001, 0x2002, 0x2003, 0x2004, 0x2005, 0x2006, 0x2007,
    0x2008, 0x2009, 0x200A, 0x2028, 0x2029, 0x202F, 0x205F,
    0x3000].contains c.toNat

/-- The whitespace-skipping loop at the top of get_token (lexer.rs line 43):
while the lookahead is whitespace, refresh it with getchar. getchar at end of
input panics in the source (char::from_u32 of the EOF sentinel -1 cast to u32
is None and is unwrapped), modelled by `none` on the empty stream. -/
def skip_whitespace : Char → List Char → Option (Char × List Char)
  | c, input =>
    if rust_is_whitespace c || c == '\n' then
      match input with
      | [] => none
      | d :: rest => skip_whitespace d rest
    else some (c, input)

/-- A scanning loop of get_token: while p holds of the lookahead, append it to
acc and refresh the lookahead with getchar (which panics at end of input).
Returns the collected characters, the new lookahead and the remaining input. -/
def scan_while (p : Char → Bool) : List Char → Char → List Char → Option (List Char × Char × List Char)
  | acc, c, input =>
    if p c then
      match input with
      | [] => none
      | d :: rest => scan_while p (acc ++ [c]) d rest
    else some (acc, c, input)

/-- The comment-skipping loop of get_token (lexer.rs lines 96-99): discard
characters until a newline or carriage return. -/
def skip_comment : Char → List Char → Option (Char × List Char)
  | c, input =>
    if c != '\n' && c != '\r' then
      match input with
      | [] => none
      | d :: rest => skip_comment d rest
    else some (c, input)

/-- The keyword table of get_token (lexer.rs lines 56-80); any other
identifier becomes TokIdentifier, and the REPL convenience identifier exit
yields TokEOF. -/
def keyword_token (s : String) : Token :=
  if s == "def" then Token.TokDef
  else if s == "extern" then Token.TokExtern
  else if s == "if" then Token.TokIf
  else if s == "then" then Token.TokThen
  else if s == "else" then Token.TokElse
  else if s == "for" then Token.TokFor
  else if s == "in" then Token.TokIn
  else if s == "var" then Token.TokVar
  else if s == "binary" then Token.TokBinary
  else if s == "unary" then Token.TokUnary
  else if s == "exit" then Token.TokEOF
  else Token.TokIdentifier s

/-- Value of a digit string read in base 10. -/
def digits_nat (s : List Char) : ℕ :=
  s.foldl (fun acc c => 10 * acc + (c.toNat - 48)) 0

/-- Exact decimal value of a string drawn from [0-9.]+ holding at most one
decimal point: integer part plus fractional part scaled by a power of ten. -/
def decimal_value (s : List Char) : ℚ :=
  let intPart := s.takeWhile (fun c => c != '.')
  let fracPart := (s.dropWhile (fun c => c != '.')).drop 1
  mkRat (digits_nat intPart * 10 ^ fracPart.length + digits_nat fracPart : ℕ)
    (10 ^ fracPart.length)

/-- Outcome of Rust str::parse::<f64> on a string drawn from [0-9.]+ (the only
strings the number rule of get_token can build): the parse succeeds exactly
when the string holds at least one digit and at most one decimal point, and
fails otherwise (lexer.rs line 90 unwraps this result, so failure panics). -/
def parse_f64 (s : List Char) : Option ℚ :=
  if s.any (fun c => c.isDigit) && s.count '.' ≤ 1 then some (decimal_value s)
  else none

/-- get_token from lexer.rs (lines 41-108). The lexer state is the
one-character lookahead last_char plus the remaining input; the result is the
token, the new lookahead and the remaining input, and `none` models a panic
(getchar at end of input, or the parse().unwrap() of a malformed numeric
literal). fuel bounds only the comment recursion of line 102. -/
def get_token_fuel : Nat → Char → List Char → Option (Token × Char × List Char)
  | 0, _, _ => none
  | fuel+1, c0, input0 =>
    match skip_whitespace c0 input0 with
    | none => none
    | some (c, input) =>
      if c.isAlpha then
        match input with
        | [] => none
        | d :: rest =>
          match scan_while (fun x => x.isAlphanum) [c] d rest with
          | none => none
          | some (ident, c2, input2) =>
            some (keyword_token (String.mk ident), c2, input2)
      else if c.isDigit || c == '.' then
        match scan_while (fun x => x.isDigit || x == '.') [] c input with
        | none => none
        | some (num, c2, input2) =>
          match parse_f64 num with
          | none => none
          | some v => some (Token.TokNumber v, c2, input2)
      else if c == '#' then
        match skip_comment c input with
        | none => none
        | some (c2, input2) => get_token_fuel fuel c2 input2
      else
        match input with
        | [] => none
        | d :: rest => some (Token.TokChar c, d, rest)

/-- get_token with enough fuel for any number of comment lines in the input
(each comment recursion strictly consumes input). -/
def get_token (c : Char) (input : List Char) : Option (Token × Char × List Char) :=
  get_token_fuel (input.length + 1) c input

/-- AST nodes, flattened from the structs of ast.rs into one inductive
(enum AST plus the per-node payloads). The Unary and Var nodes and the
four-field Prototype are constructed by parser.rs; their ast.rs definitions
are a chapter behind the parser in the given sources, so their payloads are
modelled from the spec data model (section 3): Unary carries op and operand,
Var carries the bindings and body, Prototype carries name, argument names,
the operator flag and the precedence. -/
inductive AST where
  | Null
  | Number (val : ℚ)
  | Variable (name : String)
  | Unary (op : Char) (operand : AST)
  | Binary (op : Char) (lhs rhs : AST)
  | Call (callee : String) (args : List AST)
  | If (cond thenE elseE : AST)
  | For (name : String) (startE endE stepE body : AST)
  | Var (names : List (String × AST)) (body : AST)
  | Prototype (name : String) (args : List String) (is_operator : Bool) (precedence : ℤ)
  | Function (proto body : AST)

/-- Discriminator for the AST::Null sentinel: matches!(v, AST::Null). -/
def is_null : AST → Bool
  | AST.Null => true
  | _ => false

/-- The parser-visible state: the current-token slot cur_tok, the remaining
token stream, and the binary-operator precedence table keyed by the operator
character rendered to_string (the bin_op_precedence map read by
get_tok_precedence; the driver State holding it is a chapter behind
parser.rs in the given sources, so the field is modelled from the spec: a
table from operator characters to integer priorities). -/
structure PState where
  cur_tok : Token
  toks : List Token
  bin_op_precedence : List (String × ℤ)
deriving Repr, DecidableEq

/-- get_next_token at the token level: move the next token of the stream into
the cur_tok slot. Past the end of the stream the slot is modelled as holding
TokEOF (the theorems below never consume past a terminator). -/
def get_next_token : PState → PState
  | ⟨_, [], table⟩ => ⟨Token.TokEOF, [], table⟩
  | ⟨_, t :: rest, table⟩ => ⟨t, rest, table⟩

/-- get_tok_precedence (parser.rs lines 13-24): the table entry of the
current token when it is a Char token, and -1 otherwise. -/
def get_tok_precedence (st : PState) : ℤ :=
  match st.cur_tok with
  | Token.TokChar c =>
    match st.bin_op_precedence.lookup c.toString with
    | some v => v
    | none => -1
  | _ => -1

/-- Rust f64-to-i32 cast (binary_precedence = number as i32): truncation
toward zero; the saturating behavior of the cast is never reached because the
value is range-checked first. -/
def f64_as_i32 (q : ℚ) : ℤ := q.num / (q.den : ℤ)

/-- parse_number_expr (parser.rs lines 27-34): build a Number from the
current token (Null when it is not a number) and consume it. -/
def parse_number_expr (st : PState) : AST × PState :=
  match st.cur_tok with
  | Token.TokNumber n => (AST.Number n, get_next_token st)
  | _ => (AST.Null, get_next_token st)

/-- HashMap::insert modelled on an association list: replace the entry of an
existing key, else append. -/
def assoc_insert {β : Type} : List (String × β) → String → β → List (String × β)
  | [], k, v => [(k, v)]
  | (k0, v0) :: rest, k, v =>
    if k0 = k then (k, v) :: rest else (k0, v0) :: assoc_insert rest k v

mutual

/-- parse_expression (parser.rs lines 154-161): a unary followed by the
precedence-climbing loop at minimum precedence 0. Every function of this
mutual block takes a fuel bound on the recursion depth; running out of fuel
is reported as the error string out of fuel, which no source path produces. -/
def parse_expression : Nat → PState → Except String (AST × PState)
  | 0, _ => .error "out of fuel"
  | fuel+1, st =>
    match parse_unary fuel st with
    | .error e => .error e
    | .ok (lhs, st1) =>
      if is_null lhs then .ok (lhs, st1)
      else parse_bin_op_rhs fuel 0 lhs st1

/-- parse_unary (parser.rs lines 163-181): a non-Char token or a parenthesis
is a primary; any other Char token is read as a unary operator applied to a
unary. -/
def parse_unary : Nat → PState → Except String (AST × PState)
  | 0, _ => .error "out of fuel"
  | fuel+1, st =>
    match st.cur_tok with
    | Token.TokChar c =>
      if c = '(' ∨ c = ')' then parse_primary fuel st
      else
        let st1 := get_next_token st
        match parse_unary fuel st1 with
        | .error e => .error e
        | .ok (operand, st2) => .ok (AST.Unary c operand, st2)
    | _ => parse_primary fuel st

/-- parse_primary (parser.rs lines 102-115): dispatch on the current token;
an unexpected token panics. -/
def parse_primary : Nat → PState → Except String (AST × PState)
  | 0, _ => .error "out of fuel"
  | fuel+1, st =>
    match st.cur_tok with
    | Token.TokChar '(' => parse_paren_expr fuel st
    | Token.TokIdentifier _ => parse_identifier_expr fuel st
    | Token.TokNumber _ => .ok (parse_number_expr st)
    | Token.TokIf => parse_if_expr fuel st
    | Token.TokFor => parse_for_expr fuel st
    | Token.TokVar => parse_var_expr fuel st
    | _ => .error "Unknown token when expecting an expression"

/-- parse_paren_expr (parser.rs lines 37-54): eat the opening parenthesis,
parse an expression, require and eat the closing parenthesis. -/
def parse_paren_expr : Nat → PState → Except String (AST × PState)
  | 0, _ => .error "out of fuel"
  | fuel+1, st =>
    let st1 := get_next_token st
    match parse_expression fuel st1 with
    | .error e => .error e
    | .ok (v, st2) =>
      if is_null v then .ok (v, st2)
      else if st2.cur_tok = Token.TokChar ')' then .ok (v, get_next_token st2)
      else .error "Expected ')'"

/-- parse_identifier_expr (parser.rs lines 59-96): a bare identifier is a
variable reference; an identifier followed by a parenthesis is a call. -/
def parse_identifier_expr : Nat → PState → Except String (AST × PState)
  | 0, _ => .error "out of fuel"
  | fuel+1, st =>
    match st.cur_tok with
    | Token.TokIdentifier id_name =>
      let st1 := get_next_token st
      if st1.cur_tok = Token.TokChar '(' then
        let st2 := get_next_token st1
        if st2.cur_tok = Token.TokChar ')' then
          .ok (AST.Call id_name [], get_next_token st2)
        else
          match parse_call_args fuel [] st2 with
          | .error e => .error e
          | .ok (args, st3) => .ok (AST.Call id_name args, get_next_token st3)
      else .ok (AST.Variable id_name, st1)
    | _ => .ok (AST.Null, st)

/-- The argument loop of parse_identifier_expr (parser.rs lines 76-89):
arguments separated by commas until a closing parenthesis (left for the
caller to eat); anything else panics. -/
def parse_call_args : Nat → List AST → PState → Except String (List AST × PState)
  | 0, _, _ => .error "out of fuel"
  | fuel+1, args, st =>
    match parse_expression fuel st with
    | .error e => .error e
    | .ok (arg, st1) =>
      let args1 := args ++ [arg]
      if st1.cur_tok = Token.TokChar ')' then .ok (args1, st1)
      else if st1.cur_tok = Token.TokChar ',' then
        parse_call_args fuel args1 (get_next_token st1)
      else .error "Expected ')' or ',' in argument list"

/-- parse_bin_op_rhs (parser.rs lines 117-152): the precedence-climbing loop.
While the current operator binds at least as tightly as expr_prec: consume
the operator, parse a unary right-hand side, re-parse the right-hand side at
minimum precedence tok_prec + 1 when the next operator binds more tightly,
and fold the result left-associatively into lhs. -/
def parse_bin_op_rhs : Nat → ℤ → AST → PState → Except String (AST × PState)
  | 0, _, _, _ => .error "out of fuel"
  | fuel+1, expr_prec, lhs, st =>
    let tok_prec := get_tok_precedence st
    if tok_prec < expr_prec then .ok (lhs, st)
    else
      match st.cur_tok with
      | Token.TokChar binop =>
        let st1 := get_next_token st
        match parse_unary fuel st1 with
        | .error e => .error e
        | .ok (rhs, st2) =>
          if is_null rhs then .ok (rhs, st2)
          else
            match
              (if tok_prec < get_tok_precedence st2 then
                parse_bin_op_rhs fuel (tok_prec + 1) rhs st2
              else .ok (rhs, st2)) with
            | .error e => .error e
            | .ok (rhs2, st3) =>
              parse_bin_op_rhs fuel expr_prec (AST.Binary binop lhs rhs2) st3
      | _ => .ok (AST.Null, st)

/-- parse_if_expr (parser.rs lines 296-319). -/
def parse_if_expr : Nat → PState → Except String (AST × PState)
  | 0, _ => .error "out of fuel"
  | fuel+1, st =>
    let st1 := get_next_token st
    match parse_expression fuel st1 with
    | .error e => .error e
    | .ok (cond, st2) =>
      if st2.cur_tok = Token.TokThen then
        let st3 := get_next_token st2
        match parse_expression fuel st3 with
        | .error e => .error e
        | .ok (thenE, st4) =>
          if st4.cur_tok = Token.TokElse then
            let st5 := get_next_token st4
            match parse_expression fuel st5 with
            | .error e => .error e
            | .ok (elseE, st6) => .ok (AST.If cond thenE elseE, st6)
          else .error "Expected 'else' in if expression"
      else .error "Expected 'then' in if expression"

/-- parse_for_expr (parser.rs lines 322-359): for ident = start , end
(, step)? in body; the step is optional and absent is the Null sentinel. -/
def parse_for_expr : Nat → PState → Except String (AST × PState)
  | 0, _ => .error "out of fuel"
  | fuel+1, st =>
    let st1 := get_next_token st
    match st1.cur_tok with
    | Token.TokIdentifier id_name =>
      let st2 := get_next_token st1
      if st2.cur_tok = Token.TokChar '=' then
        let st3 := get_next_token st2
        match parse_expression fuel st3 with
        | .error e => .error e
        | .ok (startE, st4) =>
          if st4.cur_tok = Token.TokChar ',' then
            let st5 := get_next_token st4
            match parse_expression fuel st5 with
            | .error e => .error e
            | .ok (endE, st6) =>
              match
                (if st6.cur_tok = Token.TokChar ',' then
                  parse_expression fuel (get_next_token st6)
                else .ok (AST.Null, st6)) with
              | .error e => .error e
              | .ok (stepE, st7) =>
                if st7.cur_tok = Token.TokIn then
                  let st8 := get_next_token st7
                  match parse_expression fuel st8 with
                  | .error e => .error e
                  | .ok (body, st9) =>
                    .ok (AST.For id_name startE endE stepE body, st9)
                else .error "Expected 'in' after for"
          else .error "Expected ',' after for start value"
      else .error "Expected '=' after for"
    | _ => .ok (AST.Null, st1)

/-- parse_var_expr (parser.rs lines 363-412): var bindings in body; at least
one identifier is asserted up front. -/
def parse_var_expr : Nat → PState → Except String (AST × PState)
  | 0, _ => .error "out of fuel"
  | fuel+1, st =>
    let st1 := get_next_token st
    match st1.cur_tok with
    | Token.TokIdentifier _ =>
      match parse_var_bindings fuel [] st1 with
      | .error e => .error e
      | .ok (none, st2) => .ok (AST.Null, st2)
      | .ok (some names, st2) =>
        if st2.cur_tok = Token.TokIn then
          let st3 := get_next_token st2
          match parse_expression fuel st3 with
          | .error e => .error e
          | .ok (body, st4) => .ok (AST.Var names body, st4)
        else .error "expected 'in' keyword after 'var'"
    | _ => .error "expected identifier after var"

/-- The binding loop of parse_var_expr (parser.rs lines 374-401): identifier,
optional = initializer, repeated over commas; the names map insert of the
source HashMap is modelled as an association-list insert. The none result
models the loop's return of the Null sentinel on a non-identifier head
(unreachable behind the asserts). -/
def parse_var_bindings : Nat → List (String × AST) → PState → Except String (Option (List (String × AST)) × PState)
  | 0, _, _ => .error "out of fuel"
  | fuel+1, names, st =>
    match st.cur_tok with
    | Token.TokIdentifier id_name =>
      let st1 := get_next_token st
      match
        (if st1.cur_tok = Token.TokChar '=' then
          parse_expression fuel (get_next_token st1)
        else .ok (AST.Null, st1)) with
      | .error e => .error e
      | .ok (init, st2) =>
        let names1 := assoc_insert names id_name init
        if st2.cur_tok = Token.TokChar ',' then
          let st3 := get_next_token st2
          match st3.cur_tok with
          | Token.TokIdentifier _ => parse_var_bindings fuel names1 st3
          | _ => .error "expected identifier list after var"
        else .ok (some names1, st2)
    | _ => .ok (none, st)

end

/-- The argument-name loop of parse_prototype (parser.rs lines 244-249):
collect identifiers until a non-identifier token. -/
def parse_proto_args : Nat → List String → PState → List String × PState
  | 0, args, st => (args, st)
  | fuel+1, args, st =>
    match st.cur_tok with
    | Token.TokIdentifier a => parse_proto_args fuel (args ++ [a]) (get_next_token st)
    | _ => (args, st)

/-- Rust char::is_ascii: the codepoint fits in seven bits. -/
def char_is_ascii (c : Char) : Bool := c.toNat ≤ 127

/-- The head of parse_prototype (parser.rs lines 186-235): an identifier, or
binary CHAR with an optional precedence number, or unary CHAR. Yields the
function name, the operator kind (0 plain, 1 unary, 2 binary) and the
precedence (the default 30 unless a number inside [1,100] was supplied, in
which case it is cast to i32 by truncation); a supplied number outside
[1,100] panics, a non-ascii or missing operator character panics. -/
def parse_prototype_head (st : PState) : Except String (String × Nat × ℤ × PState) :=
  match st.cur_tok with
  | Token.TokIdentifier a => .ok (a, 0, 30, get_next_token st)
  | Token.TokBinary =>
    let st1 := get_next_token st
    match st1.cur_tok with
    | Token.TokChar c =>
      if char_is_ascii c then
        let st2 := get_next_token st1
        match st2.cur_tok with
        | Token.TokNumber n =>
          if n < 1 ∨ 100 < n then .error "Invalid precedence: must be 1..100"
          else .ok ("binary" ++ c.toString, 2, f64_as_i32 n, get_next_token st2)
        | _ => .ok ("binary" ++ c.toString, 2, 30, st2)
      else .error "Expected binary operator"
    | _ => .error "Expected binary operator"
  | Token.TokUnary =>
    let st1 := get_next_token st
    match st1.cur_tok with
    | Token.TokChar c =>
      if char_is_ascii c then .ok ("unary" ++ c.toString, 1, 30, get_next_token st1)
      else .error "Expected unary operator"
    | _ => .error "Expected binary operator"
  | _ => .error "Expected function name in prototype"

/-- parse_prototype (parser.rs lines 185-269): head, then the parenthesized
argument-name list, then the operand-arity check for operator prototypes.
The fuel only bounds the argument-name loop. -/
def parse_prototype (fuel : Nat) (st : PState) : Except String (AST × PState) :=
  match parse_prototype_head st with
  | .error e => .error e
  | .ok (fn_name, kind, binary_precedence, st1) =>
    if st1.cur_tok = Token.TokChar '(' then
      match parse_proto_args fuel [] (get_next_token st1) with
      | (arg_names, st2) =>
        if st2.cur_tok = Token.TokChar ')' then
          let st3 := get_next_token st2
          if kind ≠ 0 ∧ arg_names.length ≠ kind then
            .error "Invalid number of operands for operator"
          else .ok (AST.Prototype fn_name arg_names (kind != 0) binary_precedence, st3)
        else .error "Expected ')' in prototype"
    else .error "Expected '(' in prototype"

/-- The dispatch targets of the main_loop match (parser.rs lines 476-481):
handlers for definitions, externs and top-level expressions, and the
semicolon skip. -/
inductive TopAction where
  | skipSemi
  | handleDef
  | handleExtern
  | handleTopLevel
deriving Repr, DecidableEq

/-- The first match of main_loop (parser.rs lines 476-481): a semicolon Char
token is skipped, TokDef and TokExtern go to their handlers, and anything
else (this first match has no EOF arm) is handled as a top-level
expression. -/
def dispatch_first : Token → TopAction
  | Token.TokChar c =>
    if c = ';' then TopAction.skipSemi else TopAction.handleTopLevel
  | Token.TokDef => TopAction.handleDef
  | Token.TokExtern => TopAction.handleExtern
  | _ => TopAction.handleTopLevel

/-- main (main.rs lines 66-77) at the token level: State::new seeds the
cur_tok slot with TokUndef, and main primes the slot once (the
get_next_token call of line 74) before entering main_loop. -/
def main_prime (ts : List Token) (table : List (String × ℤ)) : PState :=
  get_next_token ⟨Token.TokUndef, ts, table⟩

/-- The opening of main_loop (parser.rs lines 471-481): prime the token slot
again, then dispatch on the resulting current token; returns the token the
first dispatch examines together with the arm it selects. -/
def main_loop_first_dispatch (st : PState) : Token × TopAction :=
  let st1 := get_next_token st
  (st1.cur_tok, dispatch_first st1.cur_tok)

/-- inkwell FloatPredicate values the code uses (ast.rs line 3): ONE is
ordered-not-equal, ULT unordered-less-than. -/
inductive FPred where
  | ONE
  | ULT
deriving Repr, DecidableEq

/-- An f64 value at run time: NaN or a (rational-modelled) number. -/
inductive FVal where
  | nan
  | num (q : ℚ)
deriving Repr, DecidableEq

/-- LLVM fcmp semantics for the two predicates the code uses: an ordered
predicate is false whenever an operand is NaN, an unordered one true. -/
def fcmp_sem : FPred → FVal → FVal → Bool
  | FPred.ONE, FVal.num x, FVal.num y => decide (x ≠ y)
  | FPred.ONE, _, _ => false
  | FPred.ULT, FVal.num x, FVal.num y => decide (x < y)
  | FPred.ULT, _, _ => true

/-- Where a conditional branch goes at run time. -/
def cond_br_target (c : Bool) (then_bb else_bb : Nat) : Nat :=
  if c then then_bb else else_bb

/-- An SSA value reference in the emitted IR: a float constant
(const_float), the result value of an emitted instruction (by its fresh id),
a function parameter, or a function value. -/
inductive Val where
  | constF (v : FVal)
  | vreg (id : Nat)
  | param (name : String)
  | func (name : String)
deriving Repr, DecidableEq

/-- Emitted IR instructions: one constructor per builder call made by ast.rs.
Value-producing instructions carry the fresh id of their result value;
store/br/condbr/ret produce none. -/
inductive Instr where
  | alloca (id : Nat) (name : String)
  | store (ptr : Nat) (v : Val)
  | load (id : Nat) (ptr : Nat) (name : String)
  | fadd (id : Nat) (lhs rhs : Val) (name : String)
  | fsub (id : Nat) (lhs rhs : Val) (name : String)
  | fmul (id : Nat) (lhs rhs : Val) (name : String)
  | fcmp (id : Nat) (pred : FPred) (lhs rhs : Val) (name : String)
  | uitofp (id : Nat) (v : Val) (name : String)
  | call (id : Nat) (callee : String) (args : List Val) (name : String)
  | phi (id : Nat) (incoming : List (Val × Nat)) (name : String)
  | br (dest : Nat)
  | condbr (cond : Val) (then_bb else_bb : Nat)
  | ret (v : Val)
deriving Repr, DecidableEq

/-- The code-generation state visible to ast.rs: the basic-block layout of
the module (block id, owning function, block name, in function order), the
instructions of each block (append-only contents, keyed by block id), the
builder insertion block, a fresh-id counter for blocks and values, and the
three symbol tables of the driver State: named_values (variable name to
stack-slot id), function_protos (prototype registry: name to argument
names) and the module function table (name to parameter names). -/
structure CG where
  block_order : List (Nat × String × String)
  block_instrs : List (Nat × List Instr)
  cur : Nat
  fresh : Nat
  named_values : List (String × Nat)
  function_protos : List (String × List String)
  module_fns : List (String × List String)
deriving Repr, DecidableEq

/-- The instructions currently in block b (empty for an untouched block). -/
def instrs_of (g : CG) (b : Nat) : List Instr :=
  (g.block_instrs.lookup b).getD []

/-- Append instruction i at the end of the contents of block b (creating the
contents entry when the block has none yet). -/
def append_instr_to : List (Nat × List Instr) → Nat → Instr → List (Nat × List Instr)
  | [], b, i => [(b, [i])]
  | (k, l) :: rest, b, i =>
    if k = b then (k, l ++ [i]) :: rest
    else (k, l) :: append_instr_to rest b i

/-- Add an (empty) contents entry for block b unless one exists. -/
def ensure_block : List (Nat × List Instr) → Nat → List (Nat × List Instr)
  | [], b => [(b, [])]
  | (k, l) :: rest, b =>
    if k = b then (k, l) :: rest else (k, l) :: ensure_block rest b

/-- builder.build_* with no result value: append to the insertion block. -/
def push_instr (g : CG) (i : Instr) : CG :=
  { g with block_instrs := append_instr_to g.block_instrs g.cur i }

/-- builder.build_* with a result value: allocate a fresh id for the result
and append the instruction to the insertion block. -/
def emit_val (g : CG) (mk : Nat → Instr) : Val × CG :=
  (Val.vreg g.fresh,
    push_instr { g with fresh := g.fresh + 1 } (mk g.fresh))

/-- context.append_basic_block(func, name): a fresh block appended at the end
of the function layout, with empty contents. -/
def append_basic_block (g : CG) (fn name : String) : Nat × CG :=
  (g.fresh,
    { g with
      fresh := g.fresh + 1,
      block_order := g.block_order ++ [(g.fresh, fn, name)],
      block_instrs := ensure_block g.block_instrs g.fresh })

/-- basic_block.get_parent(): the owning function of a block (the unwrap of
the source never fails on the states the lowering reaches; a missing block
is defaulted to the empty name). -/
def block_fn (g : CG) (b : Nat) : String :=
  match g.block_order.find? (fun e => e.1 == b) with
  | some e => e.2.1
  | none => ""

/-- basic_block.move_after(other): reorder the function layout so that block
b sits right after block a; contents are untouched. -/
def move_block_after (g : CG) (b a : Nat) : CG :=
  match g.block_order.find? (fun e => e.1 == b) with
  | none => g
  | some eb =>
    { g with
      block_order :=
        (g.block_order.filter (fun e => e.1 != b)).foldr
          (fun e acc => if e.1 = a then e :: eb :: acc else e :: acc) [] }

/-- func_value.get_first_basic_block(): the entry block of a function. -/
def first_block_of (g : CG) (fn : String) : Option Nat :=
  match g.block_order.find? (fun e => e.2.1 == fn) with
  | some e => some e.1
  | none => none

/-- create_entry_block_alloca (ast.rs lines 476-485): a second builder is
positioned at the end of the entry block of the function and emits an alloca
there; none models the unwrap panic when the function has no block yet. -/
def create_entry_block_alloca (g : CG) (fn name : String) :
    Option (Nat × CG) :=
  match first_block_of g fn with
  | none => none
  | some entry =>
    some (g.fresh,
      { g with
        fresh := g.fresh + 1,
        block_instrs := append_instr_to g.block_instrs entry (Instr.alloca g.fresh name) })

/-- module.add_function plus the parameter naming loop of
PrototypeAST::codegen (ast.rs lines 339-359). -/
def add_function (g : CG) (name : String) (args : List String) : CG :=
  { g with module_fns := g.module_fns ++ [(name, args)] }

/-- func_value.count_params(). -/
def count_params (g : CG) (fn : String) : Nat :=
  ((g.module_fns.lookup fn).getD []).length

/-- get_function (ast.rs lines 459-470): take the function from the module
when present, else re-materialize a declaration from the prototype registry
(PrototypeAST::codegen), else panic. -/
def get_function (g : CG) (name : String) : Except String (String × CG) :=
  match g.module_fns.lookup name with
  | some _ => .ok (name, g)
  | none =>
    match g.function_protos.lookup name with
    | some args => .ok (name, add_function g name args)
    | none => .error "get_function failure. Could not find key"

/-- state.fpm.run_on(&func_value): the effect of the LLVM optimization
passes on the IR is outside this development (the registered pipeline itself
is modelled separately as fpm_passes); the emitted IR is left unchanged. -/
def fpm_run (g : CG) : CG := g

/-- The parameter loop of FunctionAST::codegen (ast.rs lines 412-423): for
each parameter, allocate an entry-block slot, store the incoming parameter
into it, and bind the name in named_values; none models the entry-block
unwrap panic. -/
def codegen_params : List String → String → CG → Option CG
  | [], _, g => some g
  | a :: rest, fn, g =>
    match create_entry_block_alloca g fn a with
    | none => none
    | some (ptr, g1) =>
      let g2 := push_instr g1 (Instr.store ptr (Val.param a))
      codegen_params rest fn
        { g2 with named_values := assoc_insert g2.named_values a ptr }

mutual

/-- The code generator of ast.rs: the general codegen dispatch (lines
441-456) together with every node's codegen method, lowered over the CG
state. The verify oracle vf stands for LLVM's func_value.verify(false),
which is external to this development; it is consulted exactly where
FunctionAST::codegen asserts it (line 428). The result pairs the builder
and module state reached with either the produced value or the panic
message: a panic aborts the process, and the paired state is the state the
builder and module held at that moment. AST.Unary and AST.Var fall to the
catch-all panic of the general dispatch, as their codegen is a chapter
ahead of the given ast.rs. -/
def codegen (vf : String → CG → Bool) : AST → CG → CG × Except String Val
  | AST.Null, g => (g, .error "General code generation failure. Could not find key")
  | AST.Unary _ _, g => (g, .error "General code generation failure. Could not find key")
  | AST.Var _ _, g => (g, .error "General code generation failure. Could not find key")
  | AST.Number v, g => (g, .ok (Val.constF (FVal.num v)))
  | AST.Variable name, g =>
    match g.named_values.lookup name with
    | some ptr =>
      let (v, g1) := emit_val g (fun id => Instr.load id ptr name)
      (g1, .ok v)
    | none => (g, .error "VariableExprAST code generation failure. Could not find key")
  | AST.Binary op lhs rhs, g =>
    if op = '=' then
      match lhs with
      | AST.Variable x =>
        match codegen vf rhs g with
        | (g1, .error e) => (g1, .error e)
        | (g1, .ok v) =>
          match g1.named_values.lookup x with
          | some ptr => (push_instr g1 (Instr.store ptr v), .ok v)
          | none => (g1, .error "called Option::unwrap() on a None value")
      | _ => (g, .error "destination of '=' must be a variable")
    else
      match codegen vf lhs g with
      | (g1, .error e) => (g1, .error e)
      | (g1, .ok l) =>
        match codegen vf rhs g1 with
        | (g2, .error e) => (g2, .error e)
        | (g2, .ok r) =>
          if op = '+' then
            let (v, g3) := emit_val g2 (fun id => Instr.fadd id l r "addtmp")
            (g3, .ok v)
          else if op = '-' then
            let (v, g3) := emit_val g2 (fun id => Instr.fsub id l r "subtmp")
            (g3, .ok v)
          else if op = '*' then
            let (v, g3) := emit_val g2 (fun id => Instr.fmul id l r "multmp")
            (g3, .ok v)
          else if op = '<' then
            let (v, g3) := emit_val g2 (fun id => Instr.fcmp id FPred.ULT l r "cmptmp")
            let (v2, g4) := emit_val g3 (fun id => Instr.uitofp id v "booltmp")
            (g4, .ok v2)
          else (g2, .error "BinaryExprAST code generation failure. The operation is not supported")
  | AST.Call callee args, g =>
    match get_function g callee with
    | .error e => (g, .error e)
    | .ok (fn, g1) =>
      if count_params g1 fn ≠ args.length then
        (g1, .error "CallExprAST code generation failure. Incorrect # of arguments passed.")
      else
        match codegen_args vf args g1 with
        | (g2, .error e) => (g2, .error e)
        | (g2, .ok argvs) =>
          let (v, g3) := emit_val g2 (fun id => Instr.call id fn argvs "calltmp")
          (g3, .ok v)
  | AST.If cond thenE elseE, g =>
    match codegen vf cond g with
    | (g1, .error e) => (g1, .error e)
    | (g1, .ok condv) =>
      let (condv_out, g2) := emit_val g1
        (fun id => Instr.fcmp id FPred.ONE condv (Val.constF (FVal.num 0)) "ifcond")
      let fn := block_fn g2 g2.cur
      let (then_bb, g3) := append_basic_block g2 fn "then"
      let (else_bb, g4) := append_basic_block g3 fn "else"
      let (merge_bb, g5) := append_basic_block g4 fn "ifcont"
      let g6 := push_instr g5 (Instr.condbr condv_out then_bb else_bb)
      let g7 := { g6 with cur := then_bb }
      match codegen vf thenE g7 with
      | (g8, .error e) => (g8, .error e)
      | (g8, .ok thenv) =>
        let g9 := push_instr g8 (Instr.br merge_bb)
        let then_bb2 := g9.cur
        let g10 := move_block_after g9 else_bb then_bb2
        let g11 := { g10 with cur := else_bb }
        match codegen vf elseE g11 with
        | (g12, .error e) => (g12, .error e)
        | (g12, .ok elsev) =>
          let g13 := push_instr g12 (Instr.br merge_bb)
          let else_bb2 := g13.cur
          let g14 := move_block_after g13 merge_bb else_bb2
          let g15 := { g14 with cur := merge_bb }
          let (phiv, g16) := emit_val g15
            (fun id => Instr.phi id [(thenv, then_bb2), (elsev, else_bb2)] "iftmp")
          (g16, .ok phiv)
  | AST.For name startE endE stepE body, g =>
    let fn := block_fn g g.cur
    match create_entry_block_alloca g fn name with
    | none => (g, .error "get_first_basic_block unwrap failure")
    | some (alloca, g1) =>
      match codegen vf startE g1 with
      | (g2, .error e) => (g2, .error e)
      | (g2, .ok start_val) =>
        let g3 := push_instr g2 (Instr.store alloca start_val)
        let (loop_bb, g4) := append_basic_block g3 fn "loop"
        let g5 := push_instr g4 (Instr.br loop_bb)
        let g6 := { g5 with cur := loop_bb }
        let old_val := g6.named_values.lookup name
        let g7 := { g6 with named_values := assoc_insert g6.named_values name alloca }
        match codegen vf body g7 with
        | (g8, .error e) => (g8, .error e)
        | (g8, .ok _) =>
          match
            (if is_null stepE then (g8, Except.ok (Val.constF (FVal.num 0)))
            else codegen vf stepE g8) with
          | (g9, .error e) => (g9, .error e)
          | (g9, .ok step_val) =>
            match codegen vf endE g9 with
            | (g10, .error e) => (g10, .error e)
            | (g10, .ok end_cond) =>
              let (cur_var, g11) := emit_val g10 (fun id => Instr.load id alloca name)
              let (next_var, g12) := emit_val g11
                (fun id => Instr.fadd id cur_var step_val "nextvar")
              let g13 := push_instr g12 (Instr.store alloca next_var)
              let (end_cond_val, g14) := emit_val g13
                (fun id => Instr.fcmp id FPred.ONE end_cond (Val.constF (FVal.num 0)) "loopcond")
              let (after_bb, g15) := append_basic_block g14 fn "afterloop"
              let g16 := push_instr g15 (Instr.condbr end_cond_val loop_bb after_bb)
              let g17 := { g16 with cur := after_bb }
              let g18 :=
                match old_val with
                | some v =>
                  { g17 with named_values := assoc_insert g17.named_values name v }
                | none =>
                  { g17 with named_values := g17.named_values.filter (fun kv => kv.1 != name) }
              (g18, .ok (Val.constF (FVal.num 0)))
  | AST.Prototype name args _ _, g =>
    (add_function g name args, .ok (Val.func name))
  | AST.Function proto body, g =>
    match proto with
    | AST.Prototype pname pargs _ _ =>
      let g1 := { g with function_protos := assoc_insert g.function_protos pname pargs }
      match get_function g1 pname with
      | .error e => (g1, .error e)
      | .ok (fn, g2) =>
        let (entry_bb, g3) := append_basic_block g2 fn "entry"
        let g4 := { g3 with cur := entry_bb, named_values := [] }
        match codegen_params ((g4.module_fns.lookup fn).getD []) fn g4 with
        | none => (g4, .error "get_first_basic_block unwrap failure")
        | some g5 =>
          match codegen vf body g5 with
          | (g6, .error e) => (g6, .error e)
          | (g6, .ok retval) =>
            let g7 := push_instr g6 (Instr.ret retval)
            if vf fn g7 then (fpm_run g7, .ok (Val.func fn))
            else
              (g7, .error "FunctionAST code generation failure. LLVM could not verify function.")
    | _ =>
      (g, .error "FunctionAST code generation failure, expected a ProtoTypeAST for proto field.")

/-- The argument loop of CallExprAST::codegen (ast.rs lines 130-133). -/
def codegen_args (vf : String → CG → Bool) : List AST → CG → CG × Except String (List Val)
  | [], g => (g, .ok [])
  | a :: rest, g =>
    match codegen vf a g with
    | (g1, .error e) => (g1, .error e)
    | (g1, .ok v) =>
      match codegen_args vf rest g1 with
      | (g2, .error e) => (g2, .error e)
      | (g2, .ok vs) => (g2, .ok (v :: vs))

end

/-- The LLVM function passes named by the inkwell PassManager API that are
relevant here: the four add_*_pass calls State::new makes, plus the
alloca-promotion (mem2reg) pass the spec names. -/
inductive LlvmPass where
  | promote_memory_to_register
  | instruction_combining
  | reassociate
  | gvn
  | cfg_simplification
deriving Repr, DecidableEq

/-- The per-function pass pipeline registered by State::new (main.rs lines
30-39), in registration order: instruction combining, reassociation, GVN,
CFG simplification. -/
def fpm_passes : List LlvmPass :=
  [LlvmPass.instruction_combining, LlvmPass.reassociate, LlvmPass.gvn,
    LlvmPass.cfg_simplification]

/-- A minimal codegen state for concrete lowering runs: one function f whose
empty entry block (id 0) is the insertion point, as FunctionAST::codegen
establishes before lowering a body. -/
def demo_state : CG :=
  { block_order := [(0, "f", "entry")], block_instrs := [(0, [])], cur := 0,
    fresh := 1, named_values := [], function_protos := [], module_fns := [("f", [])] }

/-- An entirely fresh codegen state (State::new before any lowering). -/
def empty_state : CG :=
  { block_order := [], block_instrs := [], cur := 0, fresh := 0,
    named_values := [], function_protos := [], module_fns := [] }

/-- Helper: reading a token with the input stream exhausted always panics,
whatever the lookahead holds: every path through get_token calls getchar at
least once before returning a token. -/
theorem get_token_end_of_input (c : Char) : get_token c [] = none := by
  unfold get_token
  simp only [List.length_nil, Nat.zero_add]
  unfold get_token_fuel
  unfold skip_whitespace
  by_cases hws : (rust_is_whitespace c || c == '\n') = true
  · simp [hws]
  · simp only [hws, Bool.false_eq_true, if_false]
    by_cases ha : c.isAlpha = true
    · simp [ha]
    · simp only [ha, Bool.false_eq_true, if_false]
      by_cases hd : (c.isDigit || c == '.') = true
      · unfold scan_while
        simp [hd]
      · simp only [hd, Bool.false_eq_true, if_false]
        by_cases hh : (c == '#') = true
        · have hc : c = '#' := by simpa using hh
          subst hc
          unfold skip_comment
          simp
        · simp [hh]

/-- C2, counterexample: contrary to the claim that a malformed numeric literal
never fails inside the lexer, the number rule of get_token collects the string
1.2.3 and panics on parse().unwrap() (lexer.rs line 90), modelled by none. -/
theorem claim_C2_counterexample :
    get_token '1' ['.', '2', '.', '3', ' '] = none := by decide

/-- C2, amended: the lexer is not total. (i) Any ASCII byte matching no other
rule of get_token (not whitespace in the Rust sense, not alphabetic, not a
digit, not a dot, not a hash) is emitted as a Char token provided a following
byte exists (the lexer pre-reads one byte of lookahead after every token);
the ASCII bound keeps the quantifier on the domain where the modelled
identifier predicates agree with the Unicode-aware Rust ones. (ii) When the
input stream is exhausted the lexer panics inside getchar instead of emitting
the EOF token; TokEOF arises from the identifier exit instead. (iii) A
malformed numeric literal such as 1.2.3 panics inside the lexer at
parse().unwrap() rather than deferring the failure to the parser. -/
theorem claim_C2_lexer_totality_amended (c d : Char) (rest : List Char)
    (hascii : char_is_ascii c = true)
    (hw : rust_is_whitespace c = false) (hn : (c == '\n') = false)
    (ha : c.isAlpha = false) (hd : c.isDigit = false)
    (hp : (c == '.') = false) (hh : (c == '#') = false) :
    get_token c (d :: rest) = some (Token.TokChar c, d, rest) ∧
    (∀ e : Char, get_token e [] = none) ∧
    get_token '1' ['.', '2', '.', '3', ' '] = none ∧
    get_token 'e' ['x', 'i', 't', ' '] = some (Token.TokEOF, ' ', []) := by
  refine ⟨?_, get_token_end_of_input, by decide, by decide⟩
  simp [get_token, get_token_fuel, skip_whitespace, hw, hn, ha, hd, hp, hh]

/-- C2, witness: the amended theorem applied to the byte + with one byte of
input left: it is tokenized as a Char token. -/
theorem claim_C2_witness :
    get_token '+' [' '] = some (Token.TokChar '+', ' ', []) :=
  (claim_C2_lexer_totality_amended '+' ' ' [] (by decide) (by decide) (by decide)
    (by decide) (by decide) (by decide) (by decide)).1

/-- Helper: parse_unary on an identifier not followed by an opening
parenthesis yields a Variable reference and consumes one token. -/
theorem parse_unary_ident (fuel : ℕ) (a : String) (nt : Token)
    (rest : List Token) (table : List (String × ℤ)) (h : nt ≠ Token.TokChar '(') :
    parse_unary (fuel + 3) ⟨Token.TokIdentifier a, nt :: rest, table⟩
    = .ok (AST.Variable a, ⟨nt, rest, table⟩) := by
  conv_lhs => unfold parse_unary
  dsimp only
  conv_lhs => unfold parse_primary
  dsimp only
  conv_lhs => unfold parse_identifier_expr
  dsimp only [get_next_token]
  rw [if_neg h]

/-- Helper: parse_unary on a final identifier: the token slot moves to the
EOF sentinel of the stream model. -/
theorem parse_unary_ident_last (fuel : ℕ) (a : String)
    (table : List (String × ℤ)) :
    parse_unary (fuel + 3) ⟨Token.TokIdentifier a, [], table⟩
    = .ok (AST.Variable a, ⟨Token.TokEOF, [], table⟩) := by
  conv_lhs => unfold parse_unary
  dsimp only
  conv_lhs => unfold parse_primary
  dsimp only
  conv_lhs => unfold parse_identifier_expr
  dsimp only [get_next_token]
  rw [if_neg (by simp)]

/-- C7: precedence climbing. For a token stream a OP1 b OP2 c where both
operators have the same table precedence p, the parse is the
left-associative tree Binary(OP2, Binary(OP1, a, b), c); and when OP2 binds
more tightly than OP1, the right-hand side is re-parsed at minimum
precedence p1 + 1 (parser.rs line 147), giving the right grouping
Binary(OP1, a, Binary(OP2, b, c)). -/
theorem claim_C7_precedence_climbing :
    (∀ (table : List (String × ℤ)) (a b c : String) (op1 op2 : Char) (p : ℤ),
      table.lookup op1.toString = some p →
      table.lookup op2.toString = some p →
      0 ≤ p → op1 ≠ '(' → op2 ≠ '(' →
      parse_expression 12
        ⟨Token.TokIdentifier a,
          [Token.TokChar op1, Token.TokIdentifier b, Token.TokChar op2,
            Token.TokIdentifier c], table⟩
      = .ok (AST.Binary op2 (AST.Binary op1 (AST.Variable a) (AST.Variable b))
          (AST.Variable c), ⟨Token.TokEOF, [], table⟩)) ∧
    (∀ (table : List (String × ℤ)) (a b c : String) (op1 op2 : Char) (p1 p2 : ℤ),
      table.lookup op1.toString = some p1 →
      table.lookup op2.toString = some p2 →
      0 ≤ p1 → p1 < p2 → op1 ≠ '(' → op2 ≠ '(' →
      parse_expression 12
        ⟨Token.TokIdentifier a,
          [Token.TokChar op1, Token.TokIdentifier b, Token.TokChar op2,
            Token.TokIdentifier c], table⟩
      = .ok (AST.Binary op1 (AST.Variable a)
          (AST.Binary op2 (AST.Variable b) (AST.Variable c)),
          ⟨Token.TokEOF, [], table⟩)) := by
  constructor
  · intro table a b c op1 op2 p h1 h2 hp hop1 hop2
    have hnt1 : Token.TokChar op1 ≠ Token.TokChar '(' := by simpa using hop1
    have hnt2 : Token.TokChar op2 ≠ Token.TokChar '(' := by simpa using hop2
    have hp0 : ¬ p < 0 := not_lt.mpr hp
    have hpp : ¬ p < p := lt_irrefl p
    have hm1 : (-1 : ℤ) < 0 := by norm_num
    have hpm : ¬ p < -1 := by intro h; exact hp0 (lt_trans h hm1)
    have u1 : parse_unary 11
        ⟨Token.TokIdentifier a, [Token.TokChar op1, Token.TokIdentifier b,
          Token.TokChar op2, Token.TokIdentifier c], table⟩
        = .ok (AST.Variable a, ⟨Token.TokChar op1, [Token.TokIdentifier b,
            Token.TokChar op2, Token.TokIdentifier c], table⟩) := by
      simpa using parse_unary_ident 8 a (Token.TokChar op1)
        [Token.TokIdentifier b, Token.TokChar op2, Token.TokIdentifier c] table hnt1
    have u2 : parse_unary 10
        ⟨Token.TokIdentifier b, [Token.TokChar op2, Token.TokIdentifier c], table⟩
        = .ok (AST.Variable b, ⟨Token.TokChar op2, [Token.TokIdentifier c], table⟩) := by
      simpa using parse_unary_ident 7 b (Token.TokChar op2)
        [Token.TokIdentifier c] table hnt2
    have u3 : parse_unary 9 ⟨Token.TokIdentifier c, [], table⟩
        = .ok (AST.Variable c, ⟨Token.TokEOF, [], table⟩) := by
      simpa using parse_unary_ident_last 6 c table
    conv_lhs => unfold parse_expression
    rw [u1]
    simp only [is_null, Bool.false_eq_true, if_false]
    conv_lhs => unfold parse_bin_op_rhs
    simp only [get_tok_precedence, h1, get_next_token]
    rw [if_neg hp0, u2]
    simp only [is_null, Bool.false_eq_true, if_false, h2]
    rw [if_neg hpp]
    dsimp only
    conv_lhs => unfold parse_bin_op_rhs
    simp only [get_tok_precedence, h2, get_next_token]
    rw [if_neg hp0, u3]
    simp only [is_null, Bool.false_eq_true, if_false]
    rw [if_neg hpm]
    dsimp only
    conv_lhs => unfold parse_bin_op_rhs
    simp only [get_tok_precedence]
    rw [if_pos hm1]
  · intro table a b c op1 op2 p1 p2 h1 h2 hp hlt hop1 hop2
    have hnt1 : Token.TokChar op1 ≠ Token.TokChar '(' := by simpa using hop1
    have hnt2 : Token.TokChar op2 ≠ Token.TokChar '(' := by simpa using hop2
    have hp0 : ¬ p1 < 0 := not_lt.mpr hp
    have hdesc : ¬ p2 < p1 + 1 := not_lt.mpr (Int.add_one_le_iff.mpr hlt)
    have hm1 : (-1 : ℤ) < 0 := by norm_num
    have hm2 : (-1 : ℤ) < p1 + 1 := by linarith
    have hpm2 : ¬ p2 < -1 := by intro h; exact absurd h (by linarith)
    have u1 : parse_unary 11
        ⟨Token.TokIdentifier a, [Token.TokChar op1, Token.TokIdentifier b,
          Token.TokChar op2, Token.TokIdentifier c], table⟩
        = .ok (AST.Variable a, ⟨Token.TokChar op1, [Token.TokIdentifier b,
            Token.TokChar op2, Token.TokIdentifier c], table⟩) := by
      simpa using parse_unary_ident 8 a (Token.TokChar op1)
        [Token.TokIdentifier b, Token.TokChar op2, Token.TokIdentifier c] table hnt1
    have u2 : parse_unary 10
        ⟨Token.TokIdentifier b, [Token.TokChar op2, Token.TokIdentifier c], table⟩
        = .ok (AST.Variable b, ⟨Token.TokChar op2, [Token.TokIdentifier c], table⟩) := by
      simpa using parse_unary_ident 7 b (Token.TokChar op2)
        [Token.TokIdentifier c] table hnt2
    have u3 : parse_unary 9 ⟨Token.TokIdentifier c, [], table⟩
        = .ok (AST.Variable c, ⟨Token.TokEOF, [], table⟩) := by
      simpa using parse_unary_ident_last 6 c table
    have f1 : parse_bin_op_rhs 10 (p1 + 1) (AST.Variable b)
        ⟨Token.TokChar op2, [Token.TokIdentifier c], table⟩
        = .ok (AST.Binary op2 (AST.Variable b) (AST.Variable c),
            ⟨Token.TokEOF, [], table⟩) := by
      conv_lhs => unfold parse_bin_op_rhs
      simp only [get_tok_precedence, h2, get_next_token]
      rw [if_neg hdesc, u3]
      simp only [is_null, Bool.false_eq_true, if_false]
      rw [if_neg hpm2]
      dsimp only
      conv_lhs => unfold parse_bin_op_rhs
      simp only [get_tok_precedence]
      rw [if_pos hm2]
    conv_lhs => unfold parse_expression
    rw [u1]
    simp only [is_null, Bool.false_eq_true, if_false]
    conv_lhs => unfold parse_bin_op_rhs
    simp only [get_tok_precedence, h1, get_next_token]
    rw [if_neg hp0, u2]
    simp only [is_null, Bool.false_eq_true, if_false, h2]
    rw [if_pos hlt, f1]
    dsimp only
    conv_lhs => unfold parse_bin_op_rhs
    simp only [get_tok_precedence]
    rw [if_pos hm1]

theorem claim_C7_witness :
    parse_expression 12
      ⟨Token.TokIdentifier "x",
        [Token.TokChar '+', Token.TokIdentifier "y", Token.TokChar '-',
          Token.TokIdentifier "z"], [("+", 20), ("-", 20), ("*", 40)]⟩
    = .ok (AST.Binary '-' (AST.Binary '+' (AST.Variable "x") (AST.Variable "y"))
        (AST.Variable "z"),
        ⟨Token.TokEOF, [], [("+", 20), ("-", 20), ("*", 40)]⟩) :=
  claim_C7_precedence_climbing.1 [("+", 20), ("-", 20), ("*", 40)] "x" "y" "z"
    '+' '-' 20 (by decide) (by decide) (by decide) (by decide) (by decide)

/-- C8, counterexample: contrary to the claim that a supplied precedence must
be a positive integer, the non-integer value 2.5 (inside [1,100]) is accepted
by parse_prototype and silently truncated to 2 by the as-i32 cast
(parser.rs line 216); no parse failure occurs. -/
theorem claim_C8_counterexample :
    parse_prototype 9
      ⟨Token.TokBinary,
        [Token.TokChar '@', Token.TokNumber (mkRat 5 2), Token.TokChar '(',
          Token.TokIdentifier "a", Token.TokIdentifier "b", Token.TokChar ')'], []⟩
    = .ok (AST.Prototype "binary@" ["a", "b"] true 2, ⟨Token.TokEOF, [], []⟩) := by rfl

/-- C8, amended: in a binary CHAR [N] prototype the precedence N is optional
and defaults to 30 when absent; a supplied N outside [1,100] fails the parse
with the invalid-precedence diagnostic; a supplied N inside [1,100] is
accepted whether or not it is an integer, and is truncated toward zero by the
f64-to-i32 cast. -/
theorem claim_C8_binary_precedence_amended :
    (∀ (table : List (String × ℤ)) (op : Char) (a1 a2 : String),
      char_is_ascii op = true →
      parse_prototype 9
        ⟨Token.TokBinary,
          [Token.TokChar op, Token.TokChar '(', Token.TokIdentifier a1,
            Token.TokIdentifier a2, Token.TokChar ')'], table⟩
      = .ok (AST.Prototype ("binary" ++ op.toString) [a1, a2] true 30,
          ⟨Token.TokEOF, [], table⟩)) ∧
    (∀ (table : List (String × ℤ)) (op : Char) (a1 a2 : String) (n : ℚ),
      char_is_ascii op = true → 1 ≤ n → n ≤ 100 →
      parse_prototype 9
        ⟨Token.TokBinary,
          [Token.TokChar op, Token.TokNumber n, Token.TokChar '(',
            Token.TokIdentifier a1, Token.TokIdentifier a2, Token.TokChar ')'], table⟩
      = .ok (AST.Prototype ("binary" ++ op.toString) [a1, a2] true (f64_as_i32 n),
          ⟨Token.TokEOF, [], table⟩)) ∧
    (∀ (table : List (String × ℤ)) (op : Char) (n : ℚ) (rest : List Token),
      char_is_ascii op = true → (n < 1 ∨ 100 < n) →
      parse_prototype 9
        ⟨Token.TokBinary, Token.TokChar op :: Token.TokNumber n :: rest, table⟩
      = .error "Invalid precedence: must be 1..100") := by
  refine ⟨?_, ?_, ?_⟩
  · intro table op a1 a2 hop
    simp [parse_prototype, parse_prototype_head, parse_proto_args, get_next_token, hop]
  · intro table op a1 a2 n hop h1 h100
    have hrange : ¬ (n < 1 ∨ 100 < n) := by
      rintro (h | h) <;> linarith
    simp [parse_prototype, parse_prototype_head, parse_proto_args, get_next_token,
      hop, hrange]
  · intro table op n rest hop hrange
    simp [parse_prototype, parse_prototype_head, get_next_token, hop, hrange]

/-- C8, witness: the amended theorem at the operator @ with the supplied
non-integer precedence 5/2, which is accepted and truncated to 2. -/
theorem claim_C8_witness :
    parse_prototype 9
      ⟨Token.TokBinary,
        [Token.TokChar '@', Token.TokNumber (mkRat 5 2), Token.TokChar '(',
          Token.TokIdentifier "x", Token.TokIdentifier "y", Token.TokChar ')'], []⟩
    = .ok (AST.Prototype "binary@" ["x", "y"] true (f64_as_i32 (mkRat 5 2)),
        ⟨Token.TokEOF, [], []⟩) :=
  claim_C8_binary_precedence_amended.2.1 [] '@' "x" "y" (mkRat 5 2) (by decide)
    (by decide) (by decide)

/-- C9: the very first token of the stream is discarded before any dispatch.
After main primes the slot the first token sits in cur_tok, but main_loop
immediately primes again, so its first dispatch examines the second token of
the stream: the first top-level item is parsed starting from the second
token. -/
theorem claim_C9_first_token_discarded (t0 t1 : Token) (rest : List Token)
    (table : List (String × ℤ)) :
    (main_prime (t0 :: t1 :: rest) table).cur_tok = t0 ∧
    main_loop_first_dispatch (main_prime (t0 :: t1 :: rest) table)
      = (t1, dispatch_first t1) := by
  exact ⟨rfl, rfl⟩


/-- C4, counterexample: contrary to the claim, the registered pipeline does
not begin with the alloca-promotion pass; no
add_promote_memory_to_register_pass call appears in State::new at all. -/
theorem claim_C4_counterexample :
    fpm_passes.head? ≠ some LlvmPass.promote_memory_to_register ∧
    LlvmPass.promote_memory_to_register ∉ fpm_passes := by decide

/-- C4, amended: the per-function optimizer pipeline consists, in this order,
of instruction combining, reassociation, global value numbering and
control-flow-graph simplification; no alloca-promotion (mem2reg) pass is
registered. -/
theorem claim_C4_pipeline_amended :
    fpm_passes = [LlvmPass.instruction_combining, LlvmPass.reassociate,
      LlvmPass.gvn, LlvmPass.cfg_simplification] ∧
    LlvmPass.promote_memory_to_register ∉ fpm_passes := by decide

/-- C1: lowering a for expression with an absent step emits the loop-variable
increment nextvar = cur + 0.0 — the addend is the float constant 0.0, not the
1.0 the comment above it (ast.rs line 273, If not specified use 1.0) and the
spec call for. Concretely, for i = 0, 1 in 2 lowers its loop block (id 2) to
a load, an add of constant 0.0, a store, the ONE compare and the back-edge
branch. -/
theorem claim_C1_default_step_is_zero :
    instrs_of (codegen (fun _ _ => true)
      (AST.For "i" (AST.Number 0) (AST.Number 1) AST.Null (AST.Number 2))
      demo_state).1 2
    = [Instr.load 3 1 "i",
       Instr.fadd 4 (Val.vreg 3) (Val.constF (FVal.num 0)) "nextvar",
       Instr.store 1 (Val.vreg 4),
       Instr.fcmp 5 FPred.ONE (Val.constF (FVal.num 1)) (Val.constF (FVal.num 0)) "loopcond",
       Instr.condbr (Val.vreg 5) 2 6] := by rfl

/-- C10: assignment lowers the right-hand side before looking up the
destination. For any right-hand side whose lowering succeeds in state g1, if
the destination x is unbound in g1's named_values, the assignment lowering
returns the panic of the unwrap on the named_values lookup together with g1
itself: the right-hand side's IR is already emitted at the moment of the
failure, and no up-front unknown-variable check precedes it. -/
theorem claim_C10_assignment_rhs_first (vf : String → CG → Bool) (x : String)
    (rhs : AST) (g g1 : CG) (v : Val)
    (hrhs : codegen vf rhs g = (g1, Except.ok v))
    (hunbound : g1.named_values.lookup x = none) :
    codegen vf (AST.Binary '=' (AST.Variable x) rhs) g
      = (g1, Except.error "called Option::unwrap() on a None value") := by
  unfold codegen
  rw [if_pos rfl, hrhs]
  dsimp only
  rw [hunbound]

/-- C10, witness: assigning to the unbound y after the right-hand side 1 + 2
fails only after the fadd for 1 + 2 has been emitted into the entry block. -/
theorem claim_C10_witness :
    codegen (fun _ _ => true)
      (AST.Binary '=' (AST.Variable "y")
        (AST.Binary '+' (AST.Number 1) (AST.Number 2))) demo_state
    = ({ block_order := [(0, "f", "entry")],
         block_instrs := [(0, [Instr.fadd 1 (Val.constF (FVal.num 1))
           (Val.constF (FVal.num 2)) "addtmp"])],
         cur := 0, fresh := 2, named_values := [], function_protos := [],
         module_fns := [("f", [])] }, Except.error "called Option::unwrap() on a None value") :=
  claim_C10_assignment_rhs_first (fun _ _ => true) "y"
    (AST.Binary '+' (AST.Number 1) (AST.Number 2)) demo_state _ (Val.vreg 1)
    (by rfl) (by rfl)

theorem lookup_append_instr_self (m : List (Nat × List Instr)) (b : Nat) (i : Instr) :
    (append_instr_to m b i).lookup b = some (((m.lookup b).getD []) ++ [i]) := by
  induction m with
  | nil => simp [append_instr_to, List.lookup]
  | cons kv rest ih =>
    obtain ⟨k, l⟩ := kv
    by_cases hk : k = b
    · subst hk
      simp [append_instr_to, List.lookup]
    · have hbk : (b == k) = false := beq_eq_false_iff_ne.mpr (Ne.symm hk)
      simp [append_instr_to, hk, List.lookup, hbk, ih]

theorem lookup_append_instr_other (m : List (Nat × List Instr)) (b b' : Nat)
    (i : Instr) (h : b' ≠ b) :
    (append_instr_to m b i).lookup b' = m.lookup b' := by
  have hbb : (b' == b) = false := beq_eq_false_iff_ne.mpr h
  induction m with
  | nil => simp [append_instr_to, List.lookup, hbb]
  | cons kv rest ih =>
    obtain ⟨k, l⟩ := kv
    by_cases hk : k = b
    · subst hk
      simp [append_instr_to, List.lookup, hbb, ih]
    · by_cases hk2 : b' = k
      · subst hk2
        have : (b' == b') = true := beq_self_eq_true b'
        simp [append_instr_to, hk, List.lookup]
      · have hbk : (b' == k) = false := beq_eq_false_iff_ne.mpr hk2
        simp [append_instr_to, hk, List.lookup, hbk, ih]

theorem lookup_ensure_self (m : List (Nat × List Instr)) (b : Nat) :
    (ensure_block m b).lookup b = some ((m.lookup b).getD []) := by
  induction m with
  | nil => simp [ensure_block, List.lookup]
  | cons kv rest ih =>
    obtain ⟨k, l⟩ := kv
    by_cases hk : k = b
    · subst hk
      simp [ensure_block, List.lookup]
    · have hbk : (b == k) = false := beq_eq_false_iff_ne.mpr (Ne.symm hk)
      simp [ensure_block, hk, List.lookup, hbk, ih]

theorem lookup_ensure_other (m : List (Nat × List Instr)) (b b' : Nat) (h : b' ≠ b) :
    (ensure_block m b).lookup b' = m.lookup b' := by
  have hbb : (b' == b) = false := beq_eq_false_iff_ne.mpr h
  induction m with
  | nil => simp [ensure_block, List.lookup, hbb]
  | cons kv rest ih =>
    obtain ⟨k, l⟩ := kv
    by_cases hk : k = b
    · subst hk
      simp [ensure_block, List.lookup, hbb, ih]
    · by_cases hk2 : b' = k
      · subst hk2
        simp [ensure_block, hk, List.lookup]
      · have hbk : (b' == k) = false := beq_eq_false_iff_ne.mpr hk2
        simp [ensure_block, hk, List.lookup, hbk, ih]

theorem instrs_of_push (g : CG) (i : Instr) (b : Nat) :
    instrs_of (push_instr g i) b
      = if b = g.cur then instrs_of g b ++ [i] else instrs_of g b := by
  by_cases hb : b = g.cur
  · subst hb
    simp [instrs_of, push_instr, lookup_append_instr_self]
  · simp [instrs_of, push_instr, lookup_append_instr_other _ _ _ _ hb, hb]

theorem instrs_of_append_bb (g : CG) (fn nm : String) (b : Nat) :
    instrs_of (append_basic_block g fn nm).2 b = instrs_of g b := by
  by_cases hb : b = g.fresh
  · subst hb
    simp [instrs_of, append_basic_block, lookup_ensure_self]
  · simp [instrs_of, append_basic_block, lookup_ensure_other _ _ _ hb]

theorem instrs_of_emit (g : CG) (mk : Nat → Instr) (b : Nat) :
    instrs_of (emit_val g mk).2 b
      = if b = g.cur then instrs_of g b ++ [mk g.fresh] else instrs_of g b := by
  simpa [emit_val, instrs_of, push_instr] using
    instrs_of_push { g with fresh := g.fresh + 1 } (mk g.fresh) b

theorem cur_push (g : CG) (i : Instr) : (push_instr g i).cur = g.cur := rfl

theorem fresh_push (g : CG) (i : Instr) : (push_instr g i).fresh = g.fresh := rfl

theorem cur_emit (g : CG) (mk : Nat → Instr) : (emit_val g mk).2.cur = g.cur := rfl

theorem fresh_emit (g : CG) (mk : Nat → Instr) : (emit_val g mk).2.fresh = g.fresh + 1 := rfl

theorem fst_emit (g : CG) (mk : Nat → Instr) : (emit_val g mk).1 = Val.vreg g.fresh := rfl

theorem cur_append_bb (g : CG) (fn nm : String) :
    (append_basic_block g fn nm).2.cur = g.cur := rfl

theorem fresh_append_bb (g : CG) (fn nm : String) :
    (append_basic_block g fn nm).2.fresh = g.fresh + 1 := rfl

theorem fst_append_bb (g : CG) (fn nm : String) :
    (append_basic_block g fn nm).1 = g.fresh := rfl

theorem instrs_of_projected (X : CG) (bo : List (Nat × String × String))
    (c f : Nat) (nv : List (String × Nat)) (fp mf : List (String × List String))
    (b : Nat) :
    instrs_of
      { block_order := bo, block_instrs := X.block_instrs, cur := c, fresh := f,
        named_values := nv, function_protos := fp, module_fns := mf } b
      = instrs_of X b := rfl

/-- Shape of the for-expression lowering (ast.rs lines 237-318), by inversion
on a successful run: the entry-block alloca comes first; then start, body,
step (the constant 0.0 when absent) and the end condition are lowered in that
order; after the end condition the insertion block receives, in order, the
reload of the slot, the increment add, the store back, the ONE comparison of
the end value against 0.0, and the back-edge conditional branch; finally the
builder moves to the afterloop block. -/
theorem for_codegen_shape (vf : String → CG → Bool)
    (name : String) (startE endE stepE body : AST) (g g' : CG) (v : Val)
    (h : codegen vf (AST.For name startE endE stepE body) g = (g', Except.ok v)) :
    ∃ (α : Nat) (g1 g2 : CG) (start_val : Val) (loop_bb : Nat) (g7 g8 : CG)
      (bodyv : Val) (g9 : CG) (step_val : Val) (g10 : CG) (end_cond : Val),
      create_entry_block_alloca g (block_fn g g.cur) name = some (α, g1) ∧
      codegen vf startE g1 = (g2, Except.ok start_val) ∧
      loop_bb = g2.fresh ∧
      g7.cur = loop_bb ∧
      codegen vf body g7 = (g8, Except.ok bodyv) ∧
      (if is_null stepE then ((g8, Except.ok (Val.constF (FVal.num 0))) : CG × Except String Val)
       else codegen vf stepE g8) = (g9, Except.ok step_val) ∧
      codegen vf endE g9 = (g10, Except.ok end_cond) ∧
      instrs_of g' g10.cur = instrs_of g10 g10.cur ++
        [Instr.load g10.fresh α name,
         Instr.fadd (g10.fresh + 1) (Val.vreg g10.fresh) step_val "nextvar",
         Instr.store α (Val.vreg (g10.fresh + 1)),
         Instr.fcmp (g10.fresh + 2) FPred.ONE end_cond (Val.constF (FVal.num 0)) "loopcond",
         Instr.condbr (Val.vreg (g10.fresh + 2)) loop_bb (g10.fresh + 3)] ∧
      g'.cur = g10.fresh + 3 := by
  unfold codegen at h
  dsimp only at h
  split at h
  · simp at h
  · rename_i α g1 hα
    split at h
    · simp at h
    · rename_i g2 start_val hs
      split at h
      · simp at h
      · rename_i g8 bodyv hb
        split at h
        · simp at h
        · rename_i g9 step_val hstep
          split at h
          · simp at h
          · rename_i g10 end_cond he
            split at h <;>
            · rename_i hold
              injection h with h1 h2
              subst h1
              injection h2 with h2
              refine ⟨α, g1, g2, start_val, g2.fresh, _, g8, bodyv, g9, step_val,
                g10, end_cond, hα, hs, rfl, ?_, hb, hstep, he, ?_, ?_⟩
              · simp [cur_push, fresh_push, cur_emit, fresh_emit,
                  cur_append_bb, fresh_append_bb, fst_append_bb]
              · simp [instrs_of_projected, instrs_of_push, instrs_of_emit,
                  instrs_of_append_bb, cur_push, fresh_push, cur_emit, fresh_emit,
                  fst_emit, cur_append_bb, fresh_append_bb, fst_append_bb,
                  Nat.add_assoc, List.append_assoc]
              · simp [cur_push, fresh_push, cur_emit, fresh_emit,
                  cur_append_bb, fresh_append_bb, fst_append_bb, Nat.add_assoc]

/-- Shape of the if-expression lowering (ast.rs lines 163-213), by inversion
on a successful run: after the condition is lowered, the insertion block
receives the ONE comparison of the condition against 0.0 followed by the
conditional branch whose targets are the freshly appended then and else
blocks, and the builder is positioned at the then block before the then arm
is lowered. -/
theorem if_codegen_shape (vf : String → CG → Bool) (cond thenE elseE : AST)
    (g g' : CG) (v : Val)
    (h : codegen vf (AST.If cond thenE elseE) g = (g', Except.ok v)) :
    ∃ (g1 : CG) (condv : Val) (g7 g8 : CG) (thenv : Val),
      codegen vf cond g = (g1, Except.ok condv) ∧
      instrs_of g7 g1.cur = instrs_of g1 g1.cur ++
        [Instr.fcmp g1.fresh FPred.ONE condv (Val.constF (FVal.num 0)) "ifcond",
         Instr.condbr (Val.vreg g1.fresh) (g1.fresh + 1) (g1.fresh + 2)] ∧
      g7.cur = g1.fresh + 1 ∧
      codegen vf thenE g7 = (g8, Except.ok thenv) := by
  unfold codegen at h
  split at h
  · simp at h
  · rename_i g1 condv hc
    dsimp only at h
    split at h
    · simp at h
    · rename_i g8 thenv hb
      split at h
      · simp at h
      · rename_i g12 elsev hel
        injection h with h1 h2
        subst h1
        refine ⟨g1, condv, _, g8, thenv, hc, ?_, ?_, hb⟩
        · simp [instrs_of_projected, instrs_of_push, instrs_of_emit,
            instrs_of_append_bb, cur_push, fresh_push, cur_emit, fresh_emit,
            fst_emit, cur_append_bb, fresh_append_bb, fst_append_bb,
            Nat.add_assoc, List.append_assoc]
        · simp [cur_push, fresh_push, cur_emit, fresh_emit,
            cur_append_bb, fresh_append_bb, fst_append_bb, Nat.add_assoc]

/-- C3, counterexample: contrary to the claimed order body, step, increment,
end, branch, the lowering of for i = 0, (i < 3), 1 in 2 puts the
end-condition instructions (the load of i, the ULT compare and the
unsigned-int-to-float conversion, positions 0-2 of the loop block) BEFORE
the increment (the reload, the nextvar add and the store back, positions
3-5): the loop variable is incremented after the end-condition expression is
evaluated, not before. -/
theorem claim_C3_counterexample :
    instrs_of (codegen (fun _ _ => true)
      (AST.For "i" (AST.Number 0)
        (AST.Binary '<' (AST.Variable "i") (AST.Number 3)) (AST.Number 1)
        (AST.Number 2)) demo_state).1 2
    = [Instr.load 3 1 "i",
       Instr.fcmp 4 FPred.ULT (Val.vreg 3) (Val.constF (FVal.num 3)) "cmptmp",
       Instr.uitofp 5 (Val.vreg 4) "booltmp",
       Instr.load 6 1 "i",
       Instr.fadd 7 (Val.vreg 6) (Val.constF (FVal.num 1)) "nextvar",
       Instr.store 1 (Val.vreg 7),
       Instr.fcmp 8 FPred.ONE (Val.vreg 5) (Val.constF (FVal.num 0)) "loopcond",
       Instr.condbr (Val.vreg 8) 2 9] := by rfl

/-- C3, amended: in the lowering of every for expression the emitted order
is body, step, end-condition evaluation, then the increment (load the slot,
add the step, store back), then the ONE comparison of the end value against
0.0, then the conditional back-edge branch: the end-condition expression is
evaluated BEFORE the loop variable is incremented, and the five closing
instructions land in the insertion block left by the end-condition
evaluation, in that order. -/
theorem claim_C3_loop_order_amended (vf : String → CG → Bool)
    (name : String) (startE endE stepE body : AST) (g g' : CG) (v : Val)
    (h : codegen vf (AST.For name startE endE stepE body) g = (g', Except.ok v)) :
    ∃ (α : Nat) (g1 g2 : CG) (start_val : Val) (loop_bb : Nat) (g7 g8 : CG)
      (bodyv : Val) (g9 : CG) (step_val : Val) (g10 : CG) (end_cond : Val),
      create_entry_block_alloca g (block_fn g g.cur) name = some (α, g1) ∧
      codegen vf startE g1 = (g2, Except.ok start_val) ∧
      loop_bb = g2.fresh ∧
      g7.cur = loop_bb ∧
      codegen vf body g7 = (g8, Except.ok bodyv) ∧
      (if is_null stepE then ((g8, Except.ok (Val.constF (FVal.num 0))) : CG × Except String Val)
       else codegen vf stepE g8) = (g9, Except.ok step_val) ∧
      codegen vf endE g9 = (g10, Except.ok end_cond) ∧
      instrs_of g' g10.cur = instrs_of g10 g10.cur ++
        [Instr.load g10.fresh α name,
         Instr.fadd (g10.fresh + 1) (Val.vreg g10.fresh) step_val "nextvar",
         Instr.store α (Val.vreg (g10.fresh + 1)),
         Instr.fcmp (g10.fresh + 2) FPred.ONE end_cond (Val.constF (FVal.num 0)) "loopcond",
         Instr.condbr (Val.vreg (g10.fresh + 2)) loop_bb (g10.fresh + 3)] ∧
      g'.cur = g10.fresh + 3 :=
  for_codegen_shape vf name startE endE stepE body g g' v h

/-- C3, witness: the amended theorem applied to the lowering of
for i = 5, (i < 3), 1 in 2 from the demo state. -/
theorem claim_C3_witness :
    ∃ (α : Nat) (g1 g2 : CG) (start_val : Val) (loop_bb : Nat) (g7 g8 : CG)
      (bodyv : Val) (g9 : CG) (step_val : Val) (g10 : CG) (end_cond : Val),
      create_entry_block_alloca demo_state (block_fn demo_state demo_state.cur) "i"
        = some (α, g1) ∧
      codegen (fun _ _ => true) (AST.Number 5) g1 = (g2, Except.ok start_val) ∧
      loop_bb = g2.fresh ∧
      g7.cur = loop_bb ∧
      codegen (fun _ _ => true) (AST.Number 2) g7 = (g8, Except.ok bodyv) ∧
      (if is_null (AST.Number 1) then ((g8, Except.ok (Val.constF (FVal.num 0))) : CG × Except String Val)
       else codegen (fun _ _ => true) (AST.Number 1) g8) = (g9, Except.ok step_val) ∧
      codegen (fun _ _ => true) (AST.Binary '<' (AST.Variable "i") (AST.Number 3)) g9
        = (g10, Except.ok end_cond) ∧
      instrs_of (codegen (fun _ _ => true)
        (AST.For "i" (AST.Number 5)
          (AST.Binary '<' (AST.Variable "i") (AST.Number 3)) (AST.Number 1)
          (AST.Number 2)) demo_state).1 g10.cur
        = instrs_of g10 g10.cur ++
          [Instr.load g10.fresh α "i",
           Instr.fadd (g10.fresh + 1) (Val.vreg g10.fresh) step_val "nextvar",
           Instr.store α (Val.vreg (g10.fresh + 1)),
           Instr.fcmp (g10.fresh + 2) FPred.ONE end_cond (Val.constF (FVal.num 0)) "loopcond",
           Instr.condbr (Val.vreg (g10.fresh + 2)) loop_bb (g10.fresh + 3)] ∧
      (codegen (fun _ _ => true)
        (AST.For "i" (AST.Number 5)
          (AST.Binary '<' (AST.Variable "i") (AST.Number 3)) (AST.Number 1)
          (AST.Number 2)) demo_state).1.cur = g10.fresh + 3 :=
  claim_C3_loop_order_amended (fun _ _ => true) "i" (AST.Number 5)
    (AST.Binary '<' (AST.Variable "i") (AST.Number 3)) (AST.Number 1)
    (AST.Number 2) demo_state _ (Val.constF (FVal.num 0)) (by rfl)

/-- ONE (ordered-not-equal) is false whenever an operand is NaN. -/
theorem fcmp_one_nan (x : FVal) : fcmp_sem FPred.ONE FVal.nan x = false := by
  cases x <;> rfl

/-- C6: both the if lowering and the for loop-termination test compare the
condition value with the ONE (ordered-not-equal) predicate against the float
constant 0.0, and the ONE semantics make a NaN condition false, so the
conditional branch takes the false target: the else arm for if, the
afterloop exit for for. -/
theorem claim_C6_one_predicate :
    (∀ (vf : String → CG → Bool) (cond thenE elseE : AST) (g g' : CG) (v : Val),
      codegen vf (AST.If cond thenE elseE) g = (g', Except.ok v) →
      ∃ (g1 : CG) (condv : Val) (g7 g8 : CG) (thenv : Val),
        codegen vf cond g = (g1, Except.ok condv) ∧
        instrs_of g7 g1.cur = instrs_of g1 g1.cur ++
          [Instr.fcmp g1.fresh FPred.ONE condv (Val.constF (FVal.num 0)) "ifcond",
           Instr.condbr (Val.vreg g1.fresh) (g1.fresh + 1) (g1.fresh + 2)] ∧
        g7.cur = g1.fresh + 1 ∧
        codegen vf thenE g7 = (g8, Except.ok thenv) ∧
        (∀ x : FVal, cond_br_target (fcmp_sem FPred.ONE FVal.nan x)
          (g1.fresh + 1) (g1.fresh + 2) = g1.fresh + 2)) ∧
    (∀ (vf : String → CG → Bool) (name : String) (startE endE stepE body : AST)
      (g g' : CG) (v : Val),
      codegen vf (AST.For name startE endE stepE body) g = (g', Except.ok v) →
      ∃ (α : Nat) (g9 g10 : CG) (step_val : Val) (end_cond : Val) (loop_bb : Nat),
        codegen vf endE g9 = (g10, Except.ok end_cond) ∧
        instrs_of g' g10.cur = instrs_of g10 g10.cur ++
          [Instr.load g10.fresh α name,
           Instr.fadd (g10.fresh + 1) (Val.vreg g10.fresh) step_val "nextvar",
           Instr.store α (Val.vreg (g10.fresh + 1)),
           Instr.fcmp (g10.fresh + 2) FPred.ONE end_cond (Val.constF (FVal.num 0)) "loopcond",
           Instr.condbr (Val.vreg (g10.fresh + 2)) loop_bb (g10.fresh + 3)] ∧
        (∀ x : FVal, cond_br_target (fcmp_sem FPred.ONE FVal.nan x)
          loop_bb (g10.fresh + 3) = g10.fresh + 3)) := by
  constructor
  · intro vf cond thenE elseE g g' v h
    obtain ⟨g1, condv, g7, g8, thenv, hc, hi, hcur, hb⟩ :=
      if_codegen_shape vf cond thenE elseE g g' v h
    refine ⟨g1, condv, g7, g8, thenv, hc, hi, hcur, hb, ?_⟩
    intro x
    rw [fcmp_one_nan]
    rfl
  · intro vf name startE endE stepE body g g' v h
    obtain ⟨α, g1, g2, start_val, loop_bb, g7, g8, bodyv, g9, step_val, g10,
      end_cond, hα, hs, hlb, hcur, hb, hstep, he, hi, hcur2⟩ :=
      for_codegen_shape vf name startE endE stepE body g g' v h
    refine ⟨α, g9, g10, step_val, end_cond, loop_bb, he, hi, ?_⟩
    intro x
    rw [fcmp_one_nan]
    rfl

/-- C6, witness: the if half of the theorem applied to the concrete lowering
of if 1 then 2 else 3 from the demo state. -/
theorem claim_C6_witness :
    ∃ (g1 : CG) (condv : Val) (g7 g8 : CG) (thenv : Val),
      codegen (fun _ _ => true) (AST.Number 1) demo_state = (g1, Except.ok condv) ∧
      instrs_of g7 g1.cur = instrs_of g1 g1.cur ++
        [Instr.fcmp g1.fresh FPred.ONE condv (Val.constF (FVal.num 0)) "ifcond",
         Instr.condbr (Val.vreg g1.fresh) (g1.fresh + 1) (g1.fresh + 2)] ∧
      g7.cur = g1.fresh + 1 ∧
      codegen (fun _ _ => true) (AST.Number 2) g7 = (g8, Except.ok thenv) ∧
      (∀ x : FVal, cond_br_target (fcmp_sem FPred.ONE FVal.nan x)
        (g1.fresh + 1) (g1.fresh + 2) = g1.fresh + 2) :=
  claim_C6_one_predicate.1 (fun _ _ => true) (AST.Number 1) (AST.Number 2)
    (AST.Number 3) demo_state _ (Val.vreg 5) (by rfl)

theorem mfns_push (g : CG) (i : Instr) : (push_instr g i).module_fns = g.module_fns := rfl

theorem mfns_emit (g : CG) (mk : Nat → Instr) :
    (emit_val g mk).2.module_fns = g.module_fns := rfl

theorem mfns_append_bb (g : CG) (fn nm : String) :
    (append_basic_block g fn nm).2.module_fns = g.module_fns := rfl

theorem mfns_move (g : CG) (b a : Nat) :
    (move_block_after g b a).module_fns = g.module_fns := by
  unfold move_block_after
  split <;> rfl

theorem mfns_ceba (g : CG) (fn nm : String) (p : Nat) (g1 : CG)
    (h : create_entry_block_alloca g fn nm = some (p, g1)) :
    g1.module_fns = g.module_fns := by
  unfold create_entry_block_alloca at h
  split at h
  · simp at h
  · simp only [Option.some.injEq, Prod.mk.injEq] at h
    rw [← h.2]

theorem mfns_get_function (g : CG) (n fn : String) (g1 : CG)
    (h : get_function g n = .ok (fn, g1)) :
    ∃ t, g1.module_fns = g.module_fns ++ t := by
  unfold get_function at h
  split at h
  · simp only [Except.ok.injEq, Prod.mk.injEq] at h
    exact ⟨[], by rw [← h.2]; simp⟩
  · split at h
    · simp only [Except.ok.injEq, Prod.mk.injEq] at h
      rename_i args _
      exact ⟨[(n, args)], by rw [← h.2]; rfl⟩
    · simp at h

theorem mfns_codegen_params :
    ∀ (l : List String) (fn : String) (g g' : CG),
      codegen_params l fn g = some g' → g'.module_fns = g.module_fns := by
  intro l
  induction l with
  | nil =>
    intro fn g g' h
    simp only [codegen_params, Option.some.injEq] at h
    rw [← h]
  | cons a rest ih =>
    intro fn g g' h
    unfold codegen_params at h
    split at h
    · simp at h
    · rename_i p g1 hc
      have h1 := mfns_ceba g fn a p g1 hc
      have h2 := ih fn _ g' h
      rw [h2]
      simpa [push_instr] using h1

mutual

/-- No lowering step ever removes a function from the module: the module's
function table only grows (by get_function rematerializations and
add_function calls) across any codegen run, successful or panicking. -/
theorem cg_mfns (vf : String → CG → Bool) :
    (e : AST) → ∀ (g gout : CG) (r : Except String Val),
      codegen vf e g = (gout, r) → ∃ t, gout.module_fns = g.module_fns ++ t
  | AST.Null => by
      intro g gout r h
      unfold codegen at h
      injection h with h1 h2
      subst h1
      exact ⟨[], by simp⟩
  | AST.Unary _ _ => by
      intro g gout r h
      unfold codegen at h
      injection h with h1 h2
      subst h1
      exact ⟨[], by simp⟩
  | AST.Var _ _ => by
      intro g gout r h
      unfold codegen at h
      injection h with h1 h2
      subst h1
      exact ⟨[], by simp⟩
  | AST.Number _ => by
      intro g gout r h
      unfold codegen at h
      injection h with h1 h2
      subst h1
      exact ⟨[], by simp⟩
  | AST.Variable name => by
      intro g gout r h
      unfold codegen at h
      split at h
      · dsimp only [emit_val] at h
        injection h with h1 h2
        subst h1
        exact ⟨[], by simp [push_instr]⟩
      · injection h with h1 h2
        subst h1
        exact ⟨[], by simp⟩
  | AST.Binary op lhs rhs => by
      intro g gout r h
      unfold codegen at h
      split at h
      · -- assignment
        split at h
        · rename_i x
          split at h
          · rename_i g1 e1 hr
            obtain ⟨t1, h1⟩ := cg_mfns vf rhs g g1 _ hr
            injection h with ha hb
            subst ha
            exact ⟨t1, h1⟩
          · rename_i g1 v1 hr
            obtain ⟨t1, h1⟩ := cg_mfns vf rhs g g1 _ hr
            split at h
            · injection h with ha hb
              subst ha
              exact ⟨t1, by simpa [push_instr] using h1⟩
            · injection h with ha hb
              subst ha
              exact ⟨t1, h1⟩
        · injection h with ha hb
          subst ha
          exact ⟨[], by simp⟩
      · split at h
        · rename_i g1 e1 hl
          obtain ⟨t1, h1⟩ := cg_mfns vf lhs g g1 _ hl
          injection h with ha hb
          subst ha
          exact ⟨t1, h1⟩
        · rename_i g1 v1 hl
          obtain ⟨t1, h1⟩ := cg_mfns vf lhs g g1 _ hl
          split at h
          · rename_i g2 e2 hr
            obtain ⟨t2, h2⟩ := cg_mfns vf rhs g1 g2 _ hr
            injection h with ha hb
            subst ha
            exact ⟨t1 ++ t2, by rw [h2, h1, List.append_assoc]⟩
          · rename_i g2 v2 hr
            obtain ⟨t2, h2⟩ := cg_mfns vf rhs g1 g2 _ hr
            have hgoal : ∀ gx : CG, gx.module_fns = g2.module_fns →
                ∃ t, gx.module_fns = g.module_fns ++ t := by
              intro gx hx
              exact ⟨t1 ++ t2, by rw [hx, h2, h1, List.append_assoc]⟩
            split at h <;> [skip; split at h] <;> [skip; skip; split at h]
              <;> [skip; skip; skip; split at h] <;>
            · injection h with ha hb
              subst ha
              exact hgoal _ (by simp [emit_val, push_instr])
  | AST.Call callee args => by
      intro g gout r h
      unfold codegen at h
      split at h
      · injection h with ha hb
        subst ha
        exact ⟨[], by simp⟩
      · rename_i fn g1 hgf
        obtain ⟨t1, h1⟩ := mfns_get_function g callee fn g1 hgf
        split at h
        · injection h with ha hb
          subst ha
          exact ⟨t1, h1⟩
        · split at h
          · rename_i g2 e2 hargs
            obtain ⟨t2, h2⟩ := cgargs_mfns vf args g1 g2 _ hargs
            injection h with ha hb
            subst ha
            exact ⟨t1 ++ t2, by rw [h2, h1, List.append_assoc]⟩
          · rename_i g2 vs hargs
            obtain ⟨t2, h2⟩ := cgargs_mfns vf args g1 g2 _ hargs
            injection h with ha hb
            subst ha
            refine ⟨t1 ++ t2, ?_⟩
            simp only [push_instr]
            rw [h2, h1, List.append_assoc]
  | AST.If cond thenE elseE => by
      intro g gout r h
      unfold codegen at h
      split at h
      · rename_i g1 e1 hc
        obtain ⟨t1, h1⟩ := cg_mfns vf cond g g1 _ hc
        injection h with ha hb
        subst ha
        exact ⟨t1, h1⟩
      · rename_i g1 condv hc
        obtain ⟨t1, h1⟩ := cg_mfns vf cond g g1 _ hc
        dsimp only at h
        split at h
        · rename_i g8 e8 hth
          obtain ⟨t2, h2⟩ := cg_mfns vf thenE _ g8 _ hth
          injection h with ha hb
          subst ha
          refine ⟨t1 ++ t2, ?_⟩
          rw [h2]
          simp only [push_instr, emit_val, append_basic_block]
          rw [h1, List.append_assoc]
        · rename_i g8 thenv hth
          obtain ⟨t2, h2⟩ := cg_mfns vf thenE _ g8 _ hth
          split at h
          · rename_i g12 e12 hel
            obtain ⟨t3, h3⟩ := cg_mfns vf elseE _ g12 _ hel
            injection h with ha hb
            subst ha
            refine ⟨t1 ++ (t2 ++ t3), ?_⟩
            rw [h3]
            simp only [push_instr, emit_val, append_basic_block, mfns_move]
            rw [h2]
            simp only [push_instr, emit_val, append_basic_block]
            rw [h1, List.append_assoc, List.append_assoc]
          · rename_i g12 elsev hel
            obtain ⟨t3, h3⟩ := cg_mfns vf elseE _ g12 _ hel
            injection h with ha hb
            subst ha
            refine ⟨t1 ++ (t2 ++ t3), ?_⟩
            simp only [push_instr, emit_val, append_basic_block, mfns_move]
            rw [h3]
            simp only [push_instr, emit_val, append_basic_block, mfns_move]
            rw [h2]
            simp only [push_instr, emit_val, append_basic_block]
            rw [h1, List.append_assoc, List.append_assoc]
  | AST.For name startE endE stepE body => by
      intro g gout r h
      unfold codegen at h
      dsimp only at h
      split at h
      · injection h with ha hb
        subst ha
        exact ⟨[], by simp⟩
      · rename_i α g1 hα
        have hce := mfns_ceba g _ name α g1 hα
        split at h
        · rename_i g2 e2 hst
          obtain ⟨t1, h1⟩ := cg_mfns vf startE g1 g2 _ hst
          injection h with ha hb
          subst ha
          exact ⟨t1, by rw [h1, hce]⟩
        · rename_i g2 sv hst
          obtain ⟨t1, h1⟩ := cg_mfns vf startE g1 g2 _ hst
          split at h
          · rename_i g8 e8 hbody
            obtain ⟨t2, h2⟩ := cg_mfns vf body _ g8 _ hbody
            injection h with ha hb
            subst ha
            refine ⟨t1 ++ t2, ?_⟩
            rw [h2]
            simp only [push_instr, emit_val, append_basic_block]
            rw [h1, hce, List.append_assoc]
          · rename_i g8 bodyv hbody
            obtain ⟨t2, h2⟩ := cg_mfns vf body _ g8 _ hbody
            have h2' : g8.module_fns = g.module_fns ++ (t1 ++ t2) := by
              rw [h2]
              simp only [push_instr, emit_val, append_basic_block]
              rw [h1, hce, List.append_assoc]
            split at h
            · rename_i g9 e9 hstep
              have h3 : ∃ t, g9.module_fns = g8.module_fns ++ t := by
                by_cases hn : is_null stepE = true
                · rw [if_pos hn] at hstep
                  injection hstep with ha hb
                  subst ha
                  exact ⟨[], by simp⟩
                · rw [if_neg hn] at hstep
                  exact cg_mfns vf stepE g8 g9 _ hstep
              obtain ⟨t3, h3⟩ := h3
              injection h with ha hb
              subst ha
              exact ⟨t1 ++ t2 ++ t3, by rw [h3, h2', List.append_assoc]⟩
            · rename_i g9 stepv hstep
              have h3 : ∃ t, g9.module_fns = g8.module_fns ++ t := by
                by_cases hn : is_null stepE = true
                · rw [if_pos hn] at hstep
                  injection hstep with ha hb
                  subst ha
                  exact ⟨[], by simp⟩
                · rw [if_neg hn] at hstep
                  exact cg_mfns vf stepE g8 g9 _ hstep
              obtain ⟨t3, h3⟩ := h3
              have h3' : g9.module_fns = g.module_fns ++ (t1 ++ t2 ++ t3) := by
                rw [h3, h2', List.append_assoc]
              split at h
              · rename_i g10 e10 hend
                obtain ⟨t4, h4⟩ := cg_mfns vf endE g9 g10 _ hend
                injection h with ha hb
                subst ha
                exact ⟨t1 ++ t2 ++ t3 ++ t4, by rw [h4, h3', List.append_assoc]⟩
              · rename_i g10 endv hend
                obtain ⟨t4, h4⟩ := cg_mfns vf endE g9 g10 _ hend
                have h4' : g10.module_fns = g.module_fns ++ (t1 ++ t2 ++ t3 ++ t4) := by
                  rw [h4, h3', List.append_assoc]
                split at h <;>
                · injection h with ha hb
                  subst ha
                  refine ⟨t1 ++ t2 ++ t3 ++ t4, ?_⟩
                  have : ∀ gx : CG, gx.module_fns = g10.module_fns →
                      gx.module_fns = g.module_fns ++ (t1 ++ t2 ++ t3 ++ t4) := by
                    intro gx hx
                    rw [hx, h4']
                  exact this _ (by simp [emit_val, push_instr, append_basic_block])
  | AST.Prototype name args _ _ => by
      intro g gout r h
      unfold codegen at h
      injection h with ha hb
      subst ha
      exact ⟨[(name, args)], rfl⟩
  | AST.Function proto body => by
      intro g gout r h
      unfold codegen at h
      split at h
      · rename_i pname pargs io pr
        dsimp only at h
        split at h
        · injection h with ha hb
          subst ha
          exact ⟨[], by simp⟩
        · rename_i fn g2 hgf
          obtain ⟨t1, h1⟩ := mfns_get_function _ pname fn g2 hgf
          have h1' : g2.module_fns = g.module_fns ++ t1 := h1
          split at h
          · injection h with ha hb
            subst ha
            refine ⟨t1, ?_⟩
            simp only [append_basic_block]
            exact h1'
          · rename_i g5 hparams
            have h5 : g5.module_fns = g.module_fns ++ t1 := by
              rw [mfns_codegen_params _ _ _ _ hparams]
              simp only [append_basic_block]
              exact h1'
            split at h
            · rename_i g6 e6 hbody
              obtain ⟨t2, h2⟩ := cg_mfns vf body _ g6 _ hbody
              injection h with ha hb
              subst ha
              exact ⟨t1 ++ t2, by rw [h2, h5, List.append_assoc]⟩
            · rename_i g6 retval hbody
              obtain ⟨t2, h2⟩ := cg_mfns vf body _ g6 _ hbody
              have h6 : g6.module_fns = g.module_fns ++ (t1 ++ t2) := by
                rw [h2, h5, List.append_assoc]
              split at h <;>
              · injection h with ha hb
                subst ha
                exact ⟨t1 ++ t2, by simpa [fpm_run, push_instr] using h6⟩
      · injection h with ha hb
        subst ha
        exact ⟨[], by simp⟩

/-- Module monotonicity for the call-argument loop. -/
theorem cgargs_mfns (vf : String → CG → Bool) :
    (l : List AST) → ∀ (g gout : CG) (r : Except String (List Val)),
      codegen_args vf l g = (gout, r) → ∃ t, gout.module_fns = g.module_fns ++ t
  | [] => by
      intro g gout r h
      unfold codegen_args at h
      injection h with ha hb
      subst ha
      exact ⟨[], by simp⟩
  | a :: rest => by
      intro g gout r h
      unfold codegen_args at h
      split at h
      · rename_i g1 e1 ha1
        obtain ⟨t1, h1⟩ := cg_mfns vf a g g1 _ ha1
        injection h with ha hb
        subst ha
        exact ⟨t1, h1⟩
      · rename_i g1 v1 ha1
        obtain ⟨t1, h1⟩ := cg_mfns vf a g g1 _ ha1
        split at h
        · rename_i g2 e2 ha2
          obtain ⟨t2, h2⟩ := cgargs_mfns vf rest g1 g2 _ ha2
          injection h with ha hb
          subst ha
          exact ⟨t1 ++ t2, by rw [h2, h1, List.append_assoc]⟩
        · rename_i g2 vs ha2
          obtain ⟨t2, h2⟩ := cgargs_mfns vf rest g1 g2 _ ha2
          injection h with ha hb
          subst ha
          exact ⟨t1 ++ t2, by rw [h2, h1, List.append_assoc]⟩

end


theorem lookup_assoc_insert_self {β : Type} (m : List (String × β)) (k : String) (v : β) :
    (assoc_insert m k v).lookup k = some v := by
  induction m with
  | nil => simp [assoc_insert, List.lookup]
  | cons kv rest ih =>
    obtain ⟨k0, v0⟩ := kv
    by_cases hk : k0 = k
    · subst hk
      simp [assoc_insert, List.lookup]
    · have hbk : (k == k0) = false := beq_eq_false_iff_ne.mpr (Ne.symm hk)
      simp [assoc_insert, hk, List.lookup, hbk, ih]

theorem lookup_append_isSome {β : Type} (m t : List (String × β)) (k : String)
    (h : (m.lookup k).isSome) : ((m ++ t).lookup k).isSome := by
  induction m with
  | nil => simp [List.lookup] at h
  | cons kv rest ih =>
    obtain ⟨k0, v0⟩ := kv
    by_cases hk : k = k0
    · subst hk
      simp [List.lookup]
    · have hbk : (k == k0) = false := beq_eq_false_iff_ne.mpr hk
      simp only [List.cons_append, List.lookup, hbk] at h ⊢
      exact ih h

theorem get_function_lookup_self (g : CG) (n fn : String) (g1 : CG)
    (h : get_function g n = .ok (fn, g1)) :
    (g1.module_fns.lookup n).isSome := by
  unfold get_function at h
  split at h
  · rename_i v hlk
    simp only [Except.ok.injEq, Prod.mk.injEq] at h
    rw [← h.2, hlk]
    rfl
  · rename_i hnone
    split at h
    · rename_i args hproto
      simp only [Except.ok.injEq, Prod.mk.injEq] at h
      rw [← h.2]
      unfold add_function
      dsimp only
      have : ((g.module_fns ++ [(n, args)]).lookup n) = some args := by
        rw [List.lookup_append]
        simp [hnone, List.lookup]
      rw [this]
      rfl
    · simp at h

/-- C5, counterexample: contrary to the claim that a function failing IR
verification is erased from the module, lowering def f(x) 5 with a failing
verifier panics with the verification message while the module STILL
contains f, entry block and body included: nothing is erased. -/
theorem claim_C5_counterexample :
    (codegen (fun _ _ => false)
      (AST.Function (AST.Prototype "f" ["x"] false 30) (AST.Number 5))
      empty_state).2
      = Except.error "FunctionAST code generation failure. LLVM could not verify function." ∧
    ((codegen (fun _ _ => false)
      (AST.Function (AST.Prototype "f" ["x"] false 30) (AST.Number 5))
      empty_state).1.module_fns.lookup "f") = some ["x"] ∧
    instrs_of (codegen (fun _ _ => false)
      (AST.Function (AST.Prototype "f" ["x"] false 30) (AST.Number 5))
      empty_state).1 0
      = [Instr.alloca 1 "x", Instr.store 1 (Val.param "x"),
         Instr.ret (Val.constF (FVal.num 5))] := by
  refine ⟨rfl, rfl, rfl⟩

/-- C5, amended: when function emission ends in the verification panic
(assert!(func_value.verify(false), ...) at ast.rs line 428), the error is
surfaced but the function is NOT erased from the module: at the moment of
the panic the module still contains the function, and the module's function
table only ever grows relative to the starting state. -/
theorem claim_C5_verify_failure_amended (vf : String → CG → Bool)
    (pname : String) (pargs : List String) (io : Bool) (pr : ℤ) (body : AST)
    (g gout : CG)
    (h : codegen vf (AST.Function (AST.Prototype pname pargs io pr) body) g
      = (gout, Except.error "FunctionAST code generation failure. LLVM could not verify function.")) :
    (gout.module_fns.lookup pname).isSome ∧
    ∃ t, gout.module_fns = g.module_fns ++ t := by
  refine ⟨?_, cg_mfns vf _ g gout _ h⟩
  unfold codegen at h
  dsimp only at h
  split at h
  · rename_i e hgf
    exfalso
    unfold get_function at hgf
    split at hgf
    · simp at hgf
    · dsimp only at hgf
      rw [lookup_assoc_insert_self] at hgf
      simp at hgf
  · rename_i fn g2 hgf
    have hsome : (g2.module_fns.lookup pname).isSome :=
      get_function_lookup_self _ pname fn g2 hgf
    split at h
    · injection h with ha hb
      injection hb with hs
      exact absurd hs (by decide)
    · rename_i g5 hparams
      have h5mod : g5.module_fns = g2.module_fns := by
        rw [mfns_codegen_params _ _ _ _ hparams]
        exact mfns_append_bb g2 fn "entry"
      split at h
      · rename_i g6 e6 hbody
        obtain ⟨t2, h2⟩ := cg_mfns vf body _ g6 _ hbody
        injection h with ha hb
        subst ha
        rw [h2, h5mod]
        exact lookup_append_isSome _ _ _ hsome
      · rename_i g6 retval hbody
        obtain ⟨t2, h2⟩ := cg_mfns vf body _ g6 _ hbody
        split at h
        · injection h with ha hb
          simp at hb
        · injection h with ha hb
          subst ha
          simp only [push_instr]
          rw [h2, h5mod]
          exact lookup_append_isSome _ _ _ hsome

/-- C5, witness: the amended theorem on def g(a) 7 from the fresh state with
an always-failing verifier: the panic surfaces and g stays in the module. -/
theorem claim_C5_witness :
    (((codegen (fun _ _ => false)
      (AST.Function (AST.Prototype "g" ["a"] false 30) (AST.Number 7))
      empty_state).1.module_fns.lookup "g").isSome) ∧
    ∃ t, (codegen (fun _ _ => false)
      (AST.Function (AST.Prototype "g" ["a"] false 30) (AST.Number 7))
      empty_state).1.module_fns = empty_state.module_fns ++ t :=
  claim_C5_verify_failure_amended (fun _ _ => false) "g" ["a"] false 30
    (AST.Number 7) empty_state _ (by rfl)
